import Mathlib

/-
Verification of the LDAP protocol engine described by the ldapjs type
declarations (src/types/ldapjs/index.d.ts) and their accompanying
specification.  The declaration file itself contains no executable
behavior, only the static shape of the API (error classes with their
result codes, filter classes, message classes, client/server surfaces).
Following the specification, the behavioral components (BER codec,
filter model, message model, error-taxonomy mapping, session layer) are
modelled here from the specification text; the static data (error-class
names and integer codes, constructor shapes) is taken directly from the
declaration source.

Bytes are modelled as natural numbers in a `List Nat`; strings carried
on the wire are converted to byte lists by character code.  Fallible
decoding returns `Except` values so the two BER failure modes
(incomplete versus malformed data) are explicit.
-/

namespace LdapSpec

/-! ## Byte-sequence arithmetic (base-256 digits) -/

/-- Modelled from the spec: big-endian interpretation of a byte sequence
as an unsigned integer, used by the BER codec for long-form lengths and
INTEGER content octets. -/
def bytesToNat (bs : List Nat) : Nat :=
  bs.foldl (fun a b => 256 * a + b) 0

/-- Modelled from the spec: minimal big-endian base-256 digits of an
unsigned integer (empty for zero). -/
def natToBytes (n : Nat) : List Nat :=
  if h : n = 0 then []
  else natToBytes (n / 256) ++ [n % 256]
decreasing_by exact Nat.div_lt_self (Nat.pos_of_ne_zero h) (by norm_num)

theorem bytesToNat_nil : bytesToNat [] = 0 := rfl

theorem bytesToNat_concat (l : List Nat) (d : Nat) :
    bytesToNat (l ++ [d]) = 256 * bytesToNat l + d := by
  unfold bytesToNat
  rw [List.foldl_append]
  rfl

theorem natToBytes_zero : natToBytes 0 = [] := by
  unfold natToBytes
  simp

theorem natToBytes_pos (n : Nat) (h : n ≠ 0) :
    natToBytes n = natToBytes (n / 256) ++ [n % 256] := by
  conv_lhs => unfold natToBytes
  simp [h]

theorem bytesToNat_natToBytes (n : Nat) : bytesToNat (natToBytes n) = n := by
  induction n using Nat.strong_induction_on with
  | _ n ih =>
    by_cases h : n = 0
    · subst h
      simp [natToBytes_zero, bytesToNat_nil]
    · rw [natToBytes_pos n h, bytesToNat_concat,
        ih (n / 256) (Nat.div_lt_self (Nat.pos_of_ne_zero h) (by norm_num))]
      omega

theorem natToBytes_ne_nil (n : Nat) (h : n ≠ 0) : natToBytes n ≠ [] := by
  rw [natToBytes_pos n h]
  simp

/-! ## BER codec: tag-length-value encoding and decoding

Modelled from the spec (§4.1): length encoding follows short-form
(content length below 128 in a single byte) and long-form
(length-of-length byte `0x80 + k` followed by `k` base-256 digits)
rules; the indefinite-length marker `0x80` is never produced and is
rejected on decode.  Decoding distinguishes a recoverable
`incompleteData` failure (the buffer is a truncated prefix of a valid
encoding) from an unrecoverable `malformedData` failure (the tag/length
structure is inconsistent with the buffer). -/

/-- Modelled from the spec: the two decode failure modes of the BER
codec. -/
inductive DecErr where
  | incompleteData
  | malformedData
deriving DecidableEq, Repr

/-- Modelled from the spec: definite-length BER length encoding
(short form below 128, long form otherwise). -/
def encodeLen (n : Nat) : List Nat :=
  if n < 128 then [n]
  else (128 + (natToBytes n).length) :: natToBytes n

/-- Modelled from the spec: BER length decoding, returning the decoded
length and the remaining bytes.  The indefinite-length marker `0x80` is
malformed data; a missing or truncated length is incomplete data. -/
def decodeLen : List Nat → Except DecErr (Nat × List Nat)
  | [] => .error .incompleteData
  | b :: rest =>
    if b < 128 then .ok (b, rest)
    else if b = 128 then .error .malformedData
    else if rest.length < b - 128 then .error .incompleteData
    else .ok (bytesToNat (rest.take (b - 128)), rest.drop (b - 128))

/-- Modelled from the spec: BER tag-length-value encoding of one
element with the given tag byte and content octets. -/
def encodeTLV (tag : Nat) (content : List Nat) : List Nat :=
  tag :: encodeLen content.length ++ content

/-- Modelled from the spec: BER tag-length-value decoding, returning
the tag, the content octets and the remaining bytes past the element. -/
def decodeTLV : List Nat → Except DecErr (Nat × List Nat × List Nat)
  | [] => .error .incompleteData
  | t :: rest =>
    match decodeLen rest with
    | .error e => .error e
    | .ok (len, rest2) =>
      if rest2.length < len then .error .incompleteData
      else .ok (t, rest2.take len, rest2.drop len)

theorem decodeLen_encodeLen (n : Nat) (rest : List Nat) :
    decodeLen (encodeLen n ++ rest) = .ok (n, rest) := by
  unfold encodeLen decodeLen
  by_cases h : n < 128
  · simp [h]
  · have hne : n ≠ 0 := by omega
    have hlen : (natToBytes n).length ≠ 0 := by
      intro hc
      exact natToBytes_ne_nil n hne (List.length_eq_zero.mp hc)
    simp only [h, if_false, List.cons_append]
    have h1 : ¬ (128 + (natToBytes n).length < 128) := by omega
    have h2 : ¬ (128 + (natToBytes n).length = 128) := by omega
    have h3 : 128 + (natToBytes n).length - 128 = (natToBytes n).length := by omega
    simp only [h1, if_false, h2, h3]
    have h4 : ¬ ((natToBytes n ++ rest).length < (natToBytes n).length) := by
      simp [List.length_append]
    simp only [h4, if_false, List.take_left, List.drop_left]
    rw [bytesToNat_natToBytes]

theorem decodeTLV_encodeTLV (t : Nat) (c rest : List Nat) :
    decodeTLV (encodeTLV t c ++ rest) = .ok (t, c, rest) := by
  unfold encodeTLV decodeTLV
  simp only [List.cons_append, List.append_assoc]
  rw [decodeLen_encodeLen c.length (c ++ rest)]
  have h : ¬ ((c ++ rest).length < c.length) := by
    simp [List.length_append]
  simp only [h, if_false, List.take_left, List.drop_left]

/-! ## Characterization of the two BER decode failure modes -/

/-- A buffer is recoverable when it can be extended by further bytes
into one that decodes successfully; this is exactly the "truncated
prefix of a valid encoding" notion of the spec. -/
def Recoverable (buf : List Nat) : Prop :=
  ∃ ext t c r, decodeTLV (buf ++ ext) = .ok (t, c, r)

theorem decodeLen_malformed_iff (bs : List Nat) :
    decodeLen bs = .error .malformedData ↔ ∃ r, bs = 128 :: r := by
  constructor
  · intro h
    match bs with
    | [] => simp [decodeLen] at h
    | b :: rest =>
      simp only [decodeLen] at h
      by_cases h1 : b < 128
      · simp [h1] at h
      · by_cases h2 : b = 128
        · exact ⟨rest, by rw [h2]⟩
        · by_cases h3 : rest.length < b - 128 <;> simp [h1, h2, h3] at h
  · rintro ⟨r, rfl⟩
    simp [decodeLen]

theorem decodeLen_append (bs ext r : List Nat) (L : Nat)
    (h : decodeLen bs = .ok (L, r)) :
    decodeLen (bs ++ ext) = .ok (L, r ++ ext) := by
  match bs with
  | [] => simp [decodeLen] at h
  | b :: rest =>
    rw [List.cons_append]
    simp only [decodeLen] at h ⊢
    by_cases h1 : b < 128
    · simp only [h1, if_true, Except.ok.injEq, Prod.mk.injEq] at h ⊢
      exact ⟨h.1, by rw [← h.2]⟩
    · by_cases h2 : b = 128
      · simp [h1, h2] at h
      · by_cases h3 : rest.length < b - 128
        · simp [h1, h2, h3] at h
        · have hle : b - 128 ≤ rest.length := by omega
          have h4 : ¬ ((rest ++ ext).length < b - 128) := by
            simp only [List.length_append]
            omega
          simp only [h1, if_false, h2, h3, h4,
            Except.ok.injEq, Prod.mk.injEq] at h ⊢
          refine ⟨by rw [List.take_append_of_le_length hle]; exact h.1, ?_⟩
          rw [List.drop_append_of_le_length hle, ← h.2]

theorem decodeTLV_malformed_iff (buf : List Nat) :
    decodeTLV buf = .error .malformedData ↔ ∃ t r, buf = t :: 128 :: r := by
  constructor
  · intro h
    match buf with
    | [] => simp [decodeTLV] at h
    | t :: rest =>
      simp only [decodeTLV] at h
      match hdl : decodeLen rest with
      | .error e =>
        rw [hdl] at h
        simp only [Except.error.injEq] at h
        subst h
        obtain ⟨r, hr⟩ := (decodeLen_malformed_iff rest).mp hdl
        exact ⟨t, r, by rw [hr]⟩
      | .ok (len, rest2) =>
        rw [hdl] at h
        by_cases h3 : rest2.length < len <;> simp [h3] at h
  · rintro ⟨t, r, rfl⟩
    simp only [decodeTLV]
    rw [(decodeLen_malformed_iff (128 :: r)).mpr ⟨r, rfl⟩]

theorem decodeTLV_malformed_extend (buf ext : List Nat)
    (h : decodeTLV buf = .error .malformedData) :
    decodeTLV (buf ++ ext) = .error .malformedData := by
  obtain ⟨t, r, rfl⟩ := (decodeTLV_malformed_iff buf).mp h
  exact (decodeTLV_malformed_iff _).mpr ⟨t, r ++ ext, by simp⟩

theorem decodeTLV_incomplete_extend (buf : List Nat)
    (h : decodeTLV buf = .error .incompleteData) : Recoverable buf := by
  match buf with
  | [] =>
    refine ⟨encodeTLV 0 [], 0, [], [], ?_⟩
    simpa using decodeTLV_encodeTLV 0 [] []
  | t :: rest =>
    simp only [decodeTLV] at h
    match hdl : decodeLen rest with
    | .error .malformedData => rw [hdl] at h; simp at h
    | .error .incompleteData =>
      match rest with
      | [] =>
        refine ⟨[0], t, [], [], ?_⟩
        have hre : (t :: ([] : List Nat)) ++ [0] = encodeTLV t [] ++ [] := by
          simp [encodeTLV, encodeLen]
        rw [hre, decodeTLV_encodeTLV]
      | b :: r2 =>
        simp only [decodeLen] at hdl
        by_cases h1 : b < 128
        · simp [h1] at hdl
        · by_cases h2 : b = 128
          · simp [h1, h2] at hdl
          · by_cases h3 : r2.length < b - 128
            · -- truncated long-form length: pad the length digits, then
              -- supply the announced number of content bytes
              refine ⟨List.replicate (b - 128 - r2.length) 0 ++
                List.replicate (bytesToNat (r2 ++ List.replicate (b - 128 - r2.length) 0)) 0,
                t, List.replicate (bytesToNat (r2 ++ List.replicate (b - 128 - r2.length) 0)) 0,
                [], ?_⟩
              rw [List.cons_append, List.cons_append]
              simp only [decodeTLV, decodeLen]
              have h4 : ¬ ((r2 ++ (List.replicate (b - 128 - r2.length) 0 ++
                  List.replicate (bytesToNat (r2 ++ List.replicate (b - 128 - r2.length) 0)) 0)).length
                  < b - 128) := by
                simp only [List.length_append, List.length_replicate]
                omega
              simp only [h1, if_false, h2, h4]
              have hassoc : r2 ++ (List.replicate (b - 128 - r2.length) 0 ++
                  List.replicate (bytesToNat (r2 ++ List.replicate (b - 128 - r2.length) 0)) 0) =
                  (r2 ++ List.replicate (b - 128 - r2.length) 0) ++
                  List.replicate (bytesToNat (r2 ++ List.replicate (b - 128 - r2.length) 0)) 0 := by
                rw [List.append_assoc]
              rw [hassoc]
              have hlen : (r2 ++ List.replicate (b - 128 - r2.length) 0).length = b - 128 := by
                simp only [List.length_append, List.length_replicate]
                omega
              rw [List.take_left' hlen, List.drop_left' hlen]
              have h5 : ¬ ((List.replicate (bytesToNat (r2 ++ List.replicate (b - 128 - r2.length) 0)) 0).length
                  < bytesToNat (r2 ++ List.replicate (b - 128 - r2.length) 0)) := by
                simp
              simp only [h5, if_false, Except.ok.injEq, Prod.mk.injEq]
              simp
            · simp [h1, h2, h3] at hdl
    | .ok (len, rest2) =>
      rw [hdl] at h
      by_cases h3 : rest2.length < len
      · -- truncated content: supply the missing content bytes
        refine ⟨List.replicate (len - rest2.length) 0, t,
          rest2 ++ List.replicate (len - rest2.length) 0, [], ?_⟩
        rw [List.cons_append]
        simp only [decodeTLV]
        rw [decodeLen_append rest _ rest2 len hdl]
        have h4 : ¬ ((rest2 ++ List.replicate (len - rest2.length) 0).length < len) := by
          simp only [List.length_append, List.length_replicate]
          omega
        have h5 : (rest2 ++ List.replicate (len - rest2.length) 0).length = len := by
          simp only [List.length_append, List.length_replicate]
          omega
        simp only [h4, if_false]
        rw [List.take_of_length_le (Nat.le_of_eq h5), List.drop_of_length_le (Nat.le_of_eq h5)]
      · simp [h3] at h

theorem encodeLen_ne_indefinite (n : Nat) :
    ∃ b bs, encodeLen n = b :: bs ∧ b ≠ 128 := by
  unfold encodeLen
  by_cases h : n < 128
  · exact ⟨n, [], by simp [h], by omega⟩
  · have hne : n ≠ 0 := by omega
    have hlen : (natToBytes n).length ≠ 0 := by
      intro hc
      exact natToBytes_ne_nil n hne (List.length_eq_zero.mp hc)
    exact ⟨128 + (natToBytes n).length, natToBytes n, by simp [h], by omega⟩

/-! ## BER value layer (semantic types of §4.1) -/

/-- Modelled from the spec: the logical values of the BER subset used
by LDAP — INTEGER, BOOLEAN, OCTET STRING, ENUMERATED, SEQUENCE, SET. -/
inductive BerValue where
  | int (n : Nat)
  | bool (b : Bool)
  | octets (s : List Nat)
  | enum (n : Nat)
  | seq (vs : List BerValue)
  | set (vs : List BerValue)

/-- Modelled from the spec: content octets of a nonnegative INTEGER or
ENUMERATED value (minimal big-endian digits, one zero octet for 0). -/
def intBytes (n : Nat) : List Nat :=
  if n = 0 then [0] else natToBytes n

/-- Modelled from the spec: the universal tag byte of each semantic
type. -/
def berTag : BerValue → Nat
  | .int _ => 2
  | .bool _ => 1
  | .octets _ => 4
  | .enum _ => 10
  | .seq _ => 48
  | .set _ => 49

mutual

/-- Modelled from the spec: deterministic BER encoding of a logical
value, always in definite-length form. -/
def encodeValue : BerValue → List Nat
  | .int n => encodeTLV 2 (intBytes n)
  | .bool b => encodeTLV 1 [if b then 255 else 0]
  | .octets s => encodeTLV 4 s
  | .enum n => encodeTLV 10 (intBytes n)
  | .seq vs => encodeTLV 48 (encodeValueList vs)
  | .set vs => encodeTLV 49 (encodeValueList vs)

/-- Modelled from the spec: concatenated encodings of the elements of a
SEQUENCE or SET. -/
def encodeValueList : List BerValue → List Nat
  | [] => []
  | v :: vs => encodeValue v ++ encodeValueList vs

end

/-- Content octets of the encoding of a logical value. -/
def berContent : BerValue → List Nat
  | .int n => intBytes n
  | .bool b => [if b then 255 else 0]
  | .octets s => s
  | .enum n => intBytes n
  | .seq vs => encodeValueList vs
  | .set vs => encodeValueList vs

theorem encodeValue_eq_tlv (v : BerValue) :
    encodeValue v = encodeTLV (berTag v) (berContent v) := by
  cases v <;> rfl

/-! ## Error taxonomy

The variant set, the integer codes and the class names are taken
directly from the declaration source (src/types/ldapjs/index.d.ts,
lines 326-493); the `fromResultCode` mapping itself is modelled from
the spec (§4.4). -/

/-- Named error variants declared in the source, one per error class,
including the four local variants that all carry code 80. -/
inductive LDAPErrKind where
  | operationsError
  | protocolError
  | timeLimitExceededError
  | sizeLimitExceededError
  | compareFalseError
  | compareTrueError
  | authMethodNotSupportError
  | strongAuthRequiredError
  | referralError
  | adminLimitExceededError
  | unavailableCriticalExtensionError
  | confidentialityRequiredError
  | saslBindInProgressError
  | noSuchAttributeError
  | undefinedAttributeTypeError
  | inappropriateMatchingError
  | constraintViolationError
  | attributeOrValueExistsError
  | invalidAttributeSyntaxError
  | noSuchObjectError
  | aliasProblemError
  | invalidDnSyntaxError
  | aliasDeferProblemError
  | inappropriateAuthenticationError
  | invalidCredentialsError
  | insufficientAccessRightsError
  | busyError
  | unavailableError
  | unwillingToPerformError
  | loopDetectError
  | namingViolationError
  | objectclassViolationError
  | notAllowedOnNonLeafError
  | notAllowedOnRdnError
  | entryAlreadyExistsError
  | objectclassModsProhibited
  | affectsMultipleDsasError
  | otherError
  | proxiedAuthorizedDenied
  | connectionError
  | abandonedError
  | timeoutError
deriving DecidableEq, Repr

/-- The integer `code` field each error class declares in the source. -/
def LDAPErrKind.code : LDAPErrKind → Nat
  | .operationsError => 1
  | .protocolError => 2
  | .timeLimitExceededError => 3
  | .sizeLimitExceededError => 4
  | .compareFalseError => 5
  | .compareTrueError => 6
  | .authMethodNotSupportError => 7
  | .strongAuthRequiredError => 8
  | .referralError => 10
  | .adminLimitExceededError => 11
  | .unavailableCriticalExtensionError => 12
  | .confidentialityRequiredError => 13
  | .saslBindInProgressError => 14
  | .noSuchAttributeError => 16
  | .undefinedAttributeTypeError => 17
  | .inappropriateMatchingError => 18
  | .constraintViolationError => 19
  | .attributeOrValueExistsError => 20
  | .invalidAttributeSyntaxError => 21
  | .noSuchObjectError => 32
  | .aliasProblemError => 33
  | .invalidDnSyntaxError => 34
  | .aliasDeferProblemError => 36
  | .inappropriateAuthenticationError => 48
  | .invalidCredentialsError => 49
  | .insufficientAccessRightsError => 50
  | .busyError => 51
  | .unavailableError => 52
  | .unwillingToPerformError => 53
  | .loopDetectError => 54
  | .namingViolationError => 64
  | .objectclassViolationError => 65
  | .notAllowedOnNonLeafError => 66
  | .notAllowedOnRdnError => 67
  | .entryAlreadyExistsError => 68
  | .objectclassModsProhibited => 69
  | .affectsMultipleDsasError => 71
  | .otherError => 80
  | .proxiedAuthorizedDenied => 123
  | .connectionError => 80
  | .abandonedError => 80
  | .timeoutError => 80

/-- The `name` field each error class declares in the source. -/
def LDAPErrKind.errorName : LDAPErrKind → String
  | .operationsError => "OperationsError"
  | .protocolError => "ProtocolError"
  | .timeLimitExceededError => "TimeLimitExceededError"
  | .sizeLimitExceededError => "SizeLimitExceededError"
  | .compareFalseError => "CompareFalseError"
  | .compareTrueError => "CompareTrueError"
  | .authMethodNotSupportError => "AuthMethodNotSupportError"
  | .strongAuthRequiredError => "StrongAuthRequiredError"
  | .referralError => "ReferralError"
  | .adminLimitExceededError => "AdminLimitExceededError"
  | .unavailableCriticalExtensionError => "UnavailableCriticalExtensionError"
  | .confidentialityRequiredError => "ConfidentialityRequiredError"
  | .saslBindInProgressError => "SaslBindInProgressError"
  | .noSuchAttributeError => "NoSuchAttributeError"
  | .undefinedAttributeTypeError => "UndefinedAttributeTypeError"
  | .inappropriateMatchingError => "InappropriateMatchingError"
  | .constraintViolationError => "ConstraintViolationError"
  | .attributeOrValueExistsError => "AttributeOrValueExistsError"
  | .invalidAttributeSyntaxError => "InvalidAttributeSyntaxError"
  | .noSuchObjectError => "NoSuchObjectError"
  | .aliasProblemError => "AliasProblemError"
  | .invalidDnSyntaxError => "InvalidDnSyntaxError"
  | .aliasDeferProblemError => "AliasDeferProblemError"
  | .inappropriateAuthenticationError => "InappropriateAuthenticationError"
  | .invalidCredentialsError => "InvalidCredentialsError"
  | .insufficientAccessRightsError => "InsufficientAccessRightsError"
  | .busyError => "BusyError"
  | .unavailableError => "UnavailableError"
  | .unwillingToPerformError => "UnwillingToPerformError"
  | .loopDetectError => "LoopDetectError"
  | .namingViolationError => "NamingViolationError"
  | .objectclassViolationError => "ObjectclassViolationError"
  | .notAllowedOnNonLeafError => "NotAllowedOnNonLeafError"
  | .notAllowedOnRdnError => "NotAllowedOnRdnError"
  | .entryAlreadyExistsError => "EntryAlreadyExistsError"
  | .objectclassModsProhibited => "ObjectclassModsProhibited"
  | .affectsMultipleDsasError => "AffectsMultipleDsasError"
  | .otherError => "OtherError"
  | .proxiedAuthorizedDenied => "ProxiedAuthorizedDenied"
  | .connectionError => "ConnectionError"
  | .abandonedError => "AbandonedError"
  | .timeoutError => "TimeoutError"

/-- Modelled from the spec: the table mapping the protocol's integer
result codes to named variants.  The local variants (connection,
abandoned, timeout) are not produced by result codes; code 80 maps to
the generic `otherError`. -/
def codeTable : List (Nat × LDAPErrKind) :=
  [(1, .operationsError), (2, .protocolError), (3, .timeLimitExceededError),
   (4, .sizeLimitExceededError), (5, .compareFalseError), (6, .compareTrueError),
   (7, .authMethodNotSupportError), (8, .strongAuthRequiredError),
   (10, .referralError), (11, .adminLimitExceededError),
   (12, .unavailableCriticalExtensionError), (13, .confidentialityRequiredError),
   (14, .saslBindInProgressError), (16, .noSuchAttributeError),
   (17, .undefinedAttributeTypeError), (18, .inappropriateMatchingError),
   (19, .constraintViolationError), (20, .attributeOrValueExistsError),
   (21, .invalidAttributeSyntaxError), (32, .noSuchObjectError),
   (33, .aliasProblemError), (34, .invalidDnSyntaxError),
   (36, .aliasDeferProblemError), (48, .inappropriateAuthenticationError),
   (49, .invalidCredentialsError), (50, .insufficientAccessRightsError),
   (51, .busyError), (52, .unavailableError), (53, .unwillingToPerformError),
   (54, .loopDetectError), (64, .namingViolationError),
   (65, .objectclassViolationError), (66, .notAllowedOnNonLeafError),
   (67, .notAllowedOnRdnError), (68, .entryAlreadyExistsError),
   (69, .objectclassModsProhibited), (71, .affectsMultipleDsasError),
   (80, .otherError), (123, .proxiedAuthorizedDenied)]

/-- Modelled from the spec: lookup of a result code in the known set. -/
def kindOfCode (n : Nat) : Option LDAPErrKind :=
  (codeTable.find? (fun p => p.1 == n)).map (fun p => p.2)

/-- Modelled from the spec: an error value is either a named variant or
a generic value preserving an unknown raw code. -/
inductive LDAPErrVal where
  | named (k : LDAPErrKind)
  | other (code : Nat)
deriving DecidableEq, Repr

/-- The `code` field of an error value: the declared code of a named
variant, or the preserved raw integer of a generic value. -/
def LDAPErrVal.code : LDAPErrVal → Nat
  | .named k => k.code
  | .other n => n

/-- Modelled from the spec: an LDAPError carries its variant, a message
and the matched DN. -/
structure LDAPError where
  err : LDAPErrVal
  message : String
  dn : String
deriving DecidableEq, Repr

/-- The `code` field of a full error object. -/
def LDAPError.code (e : LDAPError) : Nat := e.err.code

/-- Modelled from the spec (§4.4): pure mapping from an integer result
code, a diagnostic message and a matched DN to a typed error.  Code 0
is success and is never wrapped; unknown codes map to a generic value
preserving the raw integer. -/
def fromResultCode (code : Nat) (message dn : String) : Option LDAPError :=
  if code = 0 then none
  else
    match kindOfCode code with
    | some k => some ⟨.named k, message, dn⟩
    | none => some ⟨.other code, message, dn⟩

theorem codeTable_consistent : ∀ p ∈ codeTable, p.2.code = p.1 := by decide

theorem kindOfCode_code (n : Nat) (k : LDAPErrKind) (h : kindOfCode n = some k) :
    k.code = n := by
  unfold kindOfCode at h
  match hf : codeTable.find? (fun p => p.1 == n) with
  | none => rw [hf] at h; exact Option.noConfusion h
  | some p =>
    rw [hf] at h
    simp only [Option.map_some', Option.some.injEq] at h
    have hp := List.find?_some hf
    have hp2 : p.1 = n := by simpa using hp
    have hmem : p ∈ codeTable := List.mem_of_find?_eq_some hf
    have hc := codeTable_consistent p hmem
    rw [← h, hc, hp2]

/-! ## Session layer: messageID assignment and response correlation

Modelled from the spec (§4.5, §5): the session owns a messageID counter
and a table of pending requests.  Dispatch assigns the next free
messageID (monotonically increasing, skipping 0, wrapping modulo 2^31,
never colliding with an in-flight ID) and fails with
`messageIDExhausted` exactly when all 2^31 - 1 usable IDs are in
flight.  Responses are correlated to pending requests strictly by
messageID, never by send order. -/

/-- Modelled from the spec: messageIDs wrap modulo 2^31; this constant
is the literal value of 2^31. -/
def idModulus : Nat := 2147483648

theorem idModulus_eq_pow : idModulus = 2 ^ 31 := by norm_num [idModulus]

/-- Modelled from the spec: successor of a candidate messageID in the
cyclic order on 1 .. 2^31 - 1 (0 is skipped at the wrap). -/
def wrapNext (c : Nat) : Nat :=
  if c + 1 = idModulus then 1 else c + 1

/-- Modelled from the spec: normalization of the counter into the
usable range 1 .. 2^31 - 1 (reduce modulo 2^31, skip 0). -/
def normId (c : Nat) : Nat :=
  if c % idModulus = 0 then 1 else c % idModulus

/-- Modelled from the spec: scan from a candidate upward (in cyclic
order) for an ID not colliding with any in-flight ID, giving up after
`fuel` candidates. -/
def scanFree (pending : List Nat) : Nat → Nat → Option Nat
  | _, 0 => none
  | c, fuel + 1 => if c ∈ pending then scanFree pending (wrapNext c) fuel else some c

/-- Modelled from the spec: the local dispatch failure when all
messageIDs are in flight. -/
inductive SessionErr where
  | messageIDExhausted
deriving DecidableEq, Repr

/-- Modelled from the spec: the mutable shared state of the session
layer — the messageID counter and the in-flight ID table. -/
structure SessionState where
  nextID : Nat
  pending : List Nat
deriving DecidableEq, Repr

/-- Invariant of the session state: in-flight IDs are pairwise distinct
and lie in the usable range. -/
def SessionWF (st : SessionState) : Prop :=
  st.pending.Nodup ∧ ∀ i ∈ st.pending, 0 < i ∧ i < idModulus

instance : DecidablePred SessionWF := fun st => by
  unfold SessionWF
  infer_instance

/-- Modelled from the spec: assign the next messageID, register it as
in flight, and advance the counter; fail with `messageIDExhausted` when
all 2^31 - 1 IDs are in flight. -/
def dispatch (st : SessionState) : Except SessionErr (Nat × SessionState) :=
  match scanFree st.pending (normId st.nextID) (idModulus - 1) with
  | none => .error .messageIDExhausted
  | some i => .ok (i, ⟨i + 1, i :: st.pending⟩)

/-- Cyclic distance from candidate `c` to target `i` along the
`wrapNext` walk on 1 .. 2^31 - 1. -/
def cycDist (c i : Nat) : Nat :=
  if c ≤ i then i - c else (idModulus - 1) - (c - i)

theorem normId_bounds (c : Nat) : 0 < normId c ∧ normId c < idModulus := by
  simp only [normId, idModulus]
  split_ifs <;> omega

theorem wrapNext_bounds (c : Nat) (h1 : 0 < c) (h2 : c < idModulus) :
    0 < wrapNext c ∧ wrapNext c < idModulus := by
  simp only [idModulus] at h2
  simp only [wrapNext, idModulus]
  split_ifs <;> omega

theorem cycDist_lt (c i : Nat) (hc1 : 0 < c) (hc2 : c < idModulus)
    (hi1 : 0 < i) (hi2 : i < idModulus) : cycDist c i < idModulus - 1 := by
  simp only [idModulus] at hc2 hi2
  simp only [cycDist, idModulus]
  split_ifs <;> omega

theorem cycDist_wrap (c i : Nat) (hc1 : 0 < c) (hc2 : c < idModulus)
    (hi1 : 0 < i) (hi2 : i < idModulus) (hne : c ≠ i) :
    cycDist (wrapNext c) i + 1 = cycDist c i := by
  simp only [idModulus] at hc2 hi2
  simp only [cycDist, wrapNext, idModulus]
  split_ifs <;> omega

theorem scanFree_some (pending : List Nat) (fuel : Nat) :
    ∀ c i, scanFree pending c fuel = some i →
      i ∉ pending ∧ ∃ k, i = wrapNext^[k] c ∧
        ∀ j < k, wrapNext^[j] c ∈ pending := by
  induction fuel with
  | zero => intro c i h; simp [scanFree] at h
  | succ fuel ih =>
    intro c i h
    simp only [scanFree] at h
    by_cases hc : c ∈ pending
    · rw [if_pos hc] at h
      obtain ⟨hni, k, hk, hall⟩ := ih (wrapNext c) i h
      refine ⟨hni, k + 1, ?_, ?_⟩
      · rw [Function.iterate_succ_apply, hk]
      · intro j hj
        match j with
        | 0 => exact hc
        | j + 1 =>
          rw [Function.iterate_succ_apply]
          exact hall j (by omega)
    · rw [if_neg hc] at h
      injection h with hci
      subst hci
      exact ⟨hc, 0, rfl, fun j hj => absurd hj (by omega)⟩

theorem scanFree_some_bounds (pending : List Nat) (fuel : Nat) :
    ∀ c i, 0 < c → c < idModulus → scanFree pending c fuel = some i →
      0 < i ∧ i < idModulus := by
  induction fuel with
  | zero => intro c i _ _ h; simp [scanFree] at h
  | succ fuel ih =>
    intro c i h1 h2 h
    simp only [scanFree] at h
    by_cases hc : c ∈ pending
    · rw [if_pos hc] at h
      obtain ⟨w1, w2⟩ := wrapNext_bounds c h1 h2
      exact ih (wrapNext c) i w1 w2 h
    · rw [if_neg hc] at h
      injection h with hci
      omega

theorem scanFree_none_of_full (pending : List Nat)
    (hfull : ∀ i, 0 < i → i < idModulus → i ∈ pending) (fuel : Nat) :
    ∀ c, 0 < c → c < idModulus → scanFree pending c fuel = none := by
  induction fuel with
  | zero => intro c _ _; rfl
  | succ fuel ih =>
    intro c h1 h2
    simp only [scanFree]
    rw [if_pos (hfull c h1 h2)]
    obtain ⟨w1, w2⟩ := wrapNext_bounds c h1 h2
    exact ih (wrapNext c) w1 w2

theorem scanFree_isSome (pending : List Nat) (i0 : Nat)
    (hi1 : 0 < i0) (hi2 : i0 < idModulus) (hfree : i0 ∉ pending) (fuel : Nat) :
    ∀ c, 0 < c → c < idModulus → cycDist c i0 < fuel →
      (scanFree pending c fuel).isSome := by
  induction fuel with
  | zero => intro c _ _ hd; omega
  | succ fuel ih =>
    intro c h1 h2 hd
    simp only [scanFree]
    by_cases hc : c ∈ pending
    · rw [if_pos hc]
      have hne : c ≠ i0 := fun he => hfree (he ▸ hc)
      have hstep := cycDist_wrap c i0 h1 h2 hi1 hi2 hne
      obtain ⟨w1, w2⟩ := wrapNext_bounds c h1 h2
      exact ih (wrapNext c) w1 w2 (by omega)
    · rw [if_neg hc]
      rfl

/-! ## Response correlation by messageID -/

/-- Modelled from the spec: look up the pending request registered
under a messageID. -/
def lookupReq (pend : List (Nat × Nat)) (i : Nat) : Option Nat :=
  (pend.find? (fun p => p.1 == i)).map (fun p => p.2)

/-- Modelled from the spec: remove the pending request registered under
a messageID once its terminal response is delivered. -/
def removeReq (pend : List (Nat × Nat)) (i : Nat) : List (Nat × Nat) :=
  pend.filter (fun p => ! (p.1 == i))

/-- Modelled from the spec: process inbound responses in arrival order,
delivering each to the pending request whose messageID matches and
discarding responses with no matching pending request. -/
def deliverResponses (pend : List (Nat × Nat)) : List Nat → List (Nat × Option Nat)
  | [] => []
  | r :: rs =>
    match lookupReq pend r with
    | some t => (r, some t) :: deliverResponses (removeReq pend r) rs
    | none => (r, none) :: deliverResponses pend rs

theorem lookupReq_removeReq_ne (pend : List (Nat × Nat)) (r i : Nat) (hne : i ≠ r) :
    lookupReq (removeReq pend r) i = lookupReq pend i := by
  induction pend with
  | nil => rfl
  | cons p ps ih =>
    by_cases hr : p.1 = r
    · have hrm : removeReq (p :: ps) r = removeReq ps r := by
        simp [removeReq, List.filter_cons, hr]
      have hir : (p.1 == i) = false := by
        rw [hr]
        exact beq_eq_false_iff_ne.mpr (Ne.symm hne)
      have hlk : lookupReq (p :: ps) i = lookupReq ps i := by
        unfold lookupReq
        rw [List.find?_cons_of_neg ps (by simp [hir])]
      rw [hrm, hlk]
      exact ih
    · have hrm : removeReq (p :: ps) r = p :: removeReq ps r := by
        simp [removeReq, List.filter_cons, hr]
      rw [hrm]
      by_cases hi : p.1 = i
      · unfold lookupReq
        rw [List.find?_cons_of_pos _ (by simp [hi]),
          List.find?_cons_of_pos _ (by simp [hi])]
      · unfold lookupReq
        rw [List.find?_cons_of_neg _ (by simp [hi]),
          List.find?_cons_of_neg _ (by simp [hi])]
        exact ih

theorem nodup_fst_unique (pend : List (Nat × Nat))
    (h : (pend.map Prod.fst).Nodup) (i t1 t2 : Nat)
    (h1 : (i, t1) ∈ pend) (h2 : (i, t2) ∈ pend) : t1 = t2 := by
  induction pend with
  | nil => cases h1
  | cons p ps ih =>
    simp only [List.map_cons, List.nodup_cons] at h
    cases h1 with
    | head =>
      cases h2 with
      | head => rfl
      | tail _ hm =>
        exact absurd (List.mem_map.mpr ⟨(i, t2), hm, rfl⟩) h.1
    | tail _ hm1 =>
      cases h2 with
      | head =>
        exact absurd (List.mem_map.mpr ⟨(i, t1), hm1, rfl⟩) h.1
      | tail _ hm2 => exact ih h.2 hm1 hm2

theorem deliverResponses_spec : ∀ (resps : List Nat) (pend : List (Nat × Nat)),
    (pend.map Prod.fst).Nodup → resps.Nodup →
    deliverResponses pend resps = resps.map (fun i => (i, lookupReq pend i)) := by
  intro resps
  induction resps with
  | nil => intro pend _ _; rfl
  | cons r rs ih =>
    intro pend hids hnd
    simp only [List.nodup_cons] at hnd
    simp only [deliverResponses, List.map_cons]
    match hl : lookupReq pend r with
    | some t =>
      have hsub : ((removeReq pend r).map Prod.fst).Sublist (pend.map Prod.fst) :=
        (List.filter_sublist pend).map Prod.fst
      rw [ih (removeReq pend r) (hids.sublist hsub) hnd.2]
      have hmaps : rs.map (fun i => (i, lookupReq (removeReq pend r) i)) =
          rs.map (fun i => (i, lookupReq pend i)) := by
        refine List.map_congr_left ?_
        intro i hi
        have hne : i ≠ r := fun he => hnd.1 (he ▸ hi)
        rw [lookupReq_removeReq_ne pend r i hne]
      rw [hmaps]
    | none =>
      rw [ih pend hids hnd.2]

/-! ## Filter model

The variant set follows the filter classes declared in the source
(EqualityFilter, PresenceFilter, SubstringFilter,
GreaterThanEqualsFilter, LessThanEqualsFilter, AndFilter, OrFilter,
NotFilter, ApproximateFilter); evaluation, printing and parsing are
modelled from the spec (§4.2). -/

/-- Typed representation of LDAP search filters, one constructor per
filter class declared in the source. -/
inductive Filter where
  | equality (attr value : String)
  | presence (attr : String)
  | substring (attr : String) (initial : Option String)
      (anyParts : List String) (final : Option String)
  | greaterOrEqual (attr value : String)
  | lessOrEqual (attr value : String)
  | approximate (attr value : String)
  | and (filters : List Filter)
  | or (filters : List Filter)
  | not (filter : Filter)

/-- Modelled from the spec: a candidate attribute set is an ordered
sequence of attributes, each a type with an ordered sequence of
values. -/
abbrev AttributeSet : Type := List (String × List String)

/-- Consume a literal prefix from a character list, returning the
remainder, or `none` when the prefix does not match. -/
def dropPrefixQ : List Char → List Char → Option (List Char)
  | [], s => some s
  | _ :: _, [] => none
  | c :: pre, d :: s => if c = d then dropPrefixQ pre s else none

/-- Find the first occurrence of a fragment and return the characters
after it, or `none` when the fragment does not occur. -/
def findFrag (frag : List Char) : List Char → Option (List Char)
  | [] =>
    match dropPrefixQ frag [] with
    | some r => some r
    | none => none
  | c :: s =>
    match dropPrefixQ frag (c :: s) with
    | some r => some r
    | none => findFrag frag s

/-- Match a sequence of fragments in order, returning the characters
after the last fragment. -/
def matchFragsR : List (List Char) → List Char → Option (List Char)
  | [], s => some s
  | fr :: frs, s =>
    match findFrag fr s with
    | some r => matchFragsR frs r
    | none => none

/-- Modelled from the spec: a substring assertion is true of a value
iff the value starts with the initial fragment, contains the `any`
fragments in order after it, and ends with the final fragment. -/
def substrMatch (i : Option String) (anyf : List String) (f : Option String)
    (x : String) : Bool :=
  let s0 := match i with
    | some ip => dropPrefixQ ip.data x.data
    | none => some x.data
  match s0 with
  | none => false
  | some s1 =>
    match matchFragsR (anyf.map (fun a => a.data)) s1 with
    | none => false
    | some s2 =>
      match f with
      | none => true
      | some fp => decide (s2.drop (s2.length - fp.data.length) = fp.data ∧
          fp.data.length ≤ s2.length)

mutual

/-- Modelled from the spec (§4.2): evaluation of a filter against a
candidate attribute set.  Presence is true iff the attribute is present
with at least one value; equality and approximate compare values for
equality; ordering filters use the lexicographic order on values;
and/or/not compose recursively with standard boolean semantics, the
empty and-list true and the empty or-list false. -/
def Filter.matches : Filter → AttributeSet → Bool
  | .equality a v, e => e.any (fun p => p.1 == a && p.2.contains v)
  | .presence a, e => e.any (fun p => p.1 == a && ! p.2.isEmpty)
  | .substring a i anyf f, e =>
    e.any (fun p => p.1 == a && p.2.any (fun x => substrMatch i anyf f x))
  | .greaterOrEqual a v, e =>
    e.any (fun p => p.1 == a && p.2.any (fun x => decide (v ≤ x)))
  | .lessOrEqual a v, e =>
    e.any (fun p => p.1 == a && p.2.any (fun x => decide (x ≤ v)))
  | .approximate a v, e => e.any (fun p => p.1 == a && p.2.contains v)
  | .and fs, e => matchesAll fs e
  | .or fs, e => matchesAny fs e
  | .not f, e => ! f.matches e

/-- Conjunction over an ordered sequence of child filters (true when
empty). -/
def matchesAll : List Filter → AttributeSet → Bool
  | [], _ => true
  | f :: fs, e => f.matches e && matchesAll fs e

/-- Disjunction over an ordered sequence of child filters (false when
empty). -/
def matchesAny : List Filter → AttributeSet → Bool
  | [], _ => false
  | f :: fs, e => f.matches e || matchesAny fs e

end

/-! ## Filter string syntax: printing and parsing

Modelled from the spec (§4.2): the standard parenthesized
prefix-operator grammar.  Special characters inside assertion values
are escaped with a backslash so printing and parsing are mutually
inverse; parsing fails with a `FilterSyntaxError` on unbalanced
parentheses, an unknown operator, or an empty filter. -/

/-- The empty string (named so string literals appear only in
definitions). -/
def eStr : String := ""

/-- Characters allowed in an attribute description (alphanumerics,
hyphen and dot). -/
def attrChar (c : Char) : Bool := c.isAlphanum || c = '-' || c = '.'

/-- An attribute name is non-empty and made of attribute characters
(the data-model invariant of §3). -/
def attrOk (s : String) : Bool := ! s.data.isEmpty && s.data.all attrChar

/-- Characters with structural meaning in the filter grammar, escaped
inside assertion values. -/
def specialChar (c : Char) : Bool := c = '(' || c = ')' || c = '*' || c = '\\'

/-- Escape one value character. -/
def escChar (c : Char) : List Char := if specialChar c then ['\\', c] else [c]

/-- Escape a fragment of an assertion value. -/
def escList (v : List Char) : List Char := (v.map escChar).flatten

/-- Escape a string-valued assertion value. -/
def escStr (s : String) : List Char := escList s.data

/-- The fragment contributed by an optional substring component: its
characters when present, the empty fragment when absent. -/
def fragOfOpt : Option String → List Char
  | some s => s.data
  | none => []

/-- The fragment sequence of a substring assertion: the initial part,
the `any` parts, and the final part (absent parts become empty
fragments around the separating stars). -/
def fragsOf (i : Option String) (anyf : List String) (f : Option String) :
    List (List Char) :=
  fragOfOpt i :: anyf.map (fun s => s.data) ++ [fragOfOpt f]

mutual

/-- Modelled from the spec: printing of a filter in the standard
parenthesized prefix-operator grammar. -/
def printFilter : Filter → List Char
  | .equality a v => '(' :: a.data ++ '=' :: escStr v ++ [')']
  | .presence a => '(' :: a.data ++ '=' :: '*' :: [')']
  | .substring a i anyf f =>
    '(' :: a.data ++ '=' ::
      List.intercalate ['*'] ((fragsOf i anyf f).map escList) ++ [')']
  | .greaterOrEqual a v => '(' :: a.data ++ '>' :: '=' :: escStr v ++ [')']
  | .lessOrEqual a v => '(' :: a.data ++ '<' :: '=' :: escStr v ++ [')']
  | .approximate a v => '(' :: a.data ++ '~' :: '=' :: escStr v ++ [')']
  | .and fs => '(' :: '&' :: printFilterList fs ++ [')']
  | .or fs => '(' :: '|' :: printFilterList fs ++ [')']
  | .not f => '(' :: '!' :: printFilter f ++ [')']

/-- Concatenated printed forms of the children of an and/or filter. -/
def printFilterList : List Filter → List Char
  | [] => []
  | f :: fs => printFilter f ++ printFilterList fs

end

/-- The printed string form of a filter. -/
def Filter.toFilterString (f : Filter) : String := String.mk (printFilter f)

/-- Modelled from the spec: the caller-input failure of filter string
parsing. -/
inductive FilterSyntaxError where
  | emptyFilter
  | unbalancedParens
  | unknownOperator
  | invalidAttribute
  | invalidEscape
  | invalidValue
  | trailingGarbage
  | nestingTooDeep
deriving DecidableEq, Repr

/-- One token of an assertion value: a star or a (possibly unescaped)
literal character. -/
inductive VTok where
  | star
  | chr (c : Char)
deriving DecidableEq, Repr

/-- Read the tokens of an assertion value up to the closing
parenthesis (consumed); a backslash escapes the next character. -/
def readVal : List Char → Except FilterSyntaxError (List VTok × List Char)
  | [] => .error .unbalancedParens
  | c :: rest =>
    if c = ')' then .ok ([], rest)
    else if c = '(' then .error .invalidValue
    else if c = '*' then
      (readVal rest).map (fun p => (.star :: p.1, p.2))
    else if c = '\\' then
      match rest with
      | [] => .error .invalidEscape
      | d :: rest2 => (readVal rest2).map (fun p => (.chr d :: p.1, p.2))
    else (readVal rest).map (fun p => (.chr c :: p.1, p.2))

/-- Split a token sequence into fragments at the stars. -/
def splitStars : List VTok → List (List Char)
  | [] => [[]]
  | .star :: ts => [] :: splitStars ts
  | .chr c :: ts =>
    match splitStars ts with
    | [] => [[c]]
    | f :: fs => (c :: f) :: fs

/-- A non-empty fragment becomes a present substring component; an
empty fragment an absent one. -/
def optOfFrag (x : List Char) : Option String :=
  if x.isEmpty then none else some (String.mk x)

/-- Build the filter denoted by an equals assertion from its fragment
list: one fragment is an equality, a lone star is presence, anything
else a substring assertion. -/
def filterOfFrags (a : String) (frags : List (List Char)) :
    Except FilterSyntaxError Filter :=
  match frags with
  | [] => .error .invalidValue
  | [v] => .ok (.equality a (String.mk v))
  | x :: rest =>
    if x = [] ∧ rest = [[]] then .ok (.presence a)
    else .ok (.substring a (optOfFrag x)
      (rest.dropLast.map (fun v => String.mk v)) (optOfFrag (rest.getLastD [])))

/-- An ordering or approximate assertion value must be a single
fragment (stars are not allowed unescaped). -/
def singleFrag : List VTok → Except FilterSyntaxError (List Char)
  | [] => .ok []
  | .star :: _ => .error .invalidValue
  | .chr c :: ts => (singleFrag ts).map (fun v => c :: v)

/-- Parse the value of an equals assertion and build the filter it
denotes (equality, presence or substring). -/
def parseEqBody (a : String) (r : List Char) :
    Except FilterSyntaxError (Filter × List Char) :=
  (readVal r).bind (fun p =>
    (filterOfFrags a (splitStars p.1)).map (fun f => (f, p.2)))

/-- Parse the value of an ordering or approximate assertion and build
the filter. -/
def parseOrdBody (build : String → String → Filter) (a : String) (r : List Char) :
    Except FilterSyntaxError (Filter × List Char) :=
  (readVal r).bind (fun p =>
    (singleFrag p.1).map (fun v => (build a (String.mk v), p.2)))

/-- Operator dispatch after the attribute name: equals (which may be an
equality, presence or substring assertion), greater-or-equal,
less-or-equal, approximate; anything else is an unknown operator. -/
def opDispatch (a : String) : List Char → Except FilterSyntaxError (Filter × List Char)
  | [] => .error .unknownOperator
  | c :: r0 =>
    if c = '=' then parseEqBody a r0
    else if c = '>' then
      match r0 with
      | [] => .error .unknownOperator
      | c2 :: r1 =>
        if c2 = '=' then parseOrdBody Filter.greaterOrEqual a r1
        else .error .unknownOperator
    else if c = '<' then
      match r0 with
      | [] => .error .unknownOperator
      | c2 :: r1 =>
        if c2 = '=' then parseOrdBody Filter.lessOrEqual a r1
        else .error .unknownOperator
    else if c = '~' then
      match r0 with
      | [] => .error .unknownOperator
      | c2 :: r1 =>
        if c2 = '=' then parseOrdBody Filter.approximate a r1
        else .error .unknownOperator
    else .error .unknownOperator

/-- Parse a simple (non-composite) filter body after its opening
parenthesis: attribute, operator, value, closing parenthesis. -/
def parseSimple (cs : List Char) : Except FilterSyntaxError (Filter × List Char) :=
  if (cs.takeWhile attrChar).isEmpty then .error .invalidAttribute
  else opDispatch (String.mk (cs.takeWhile attrChar)) (cs.dropWhile attrChar)

mutual

/-- Modelled from the spec: recursive-descent parser for the standard
parenthesized prefix-operator filter grammar.  The fuel argument bounds
the nesting depth; the top-level entry point supplies more fuel than
any input can consume. -/
def parseF : Nat → List Char → Except FilterSyntaxError (Filter × List Char)
  | 0, _ => .error .nestingTooDeep
  | fuel + 1, cs =>
    match cs with
    | [] => .error .emptyFilter
    | c :: r =>
      if c = '(' then
        match r with
        | [] => .error .unbalancedParens
        | c2 :: r2 =>
          if c2 = '&' then
            (parseSet fuel r2).map (fun p => (.and p.1, p.2))
          else if c2 = '|' then
            (parseSet fuel r2).map (fun p => (.or p.1, p.2))
          else if c2 = '!' then
            (parseF fuel r2).bind (fun p =>
              match p.2 with
              | [] => .error .unbalancedParens
              | c3 :: r4 =>
                if c3 = ')' then .ok (.not p.1, r4)
                else .error .unbalancedParens)
          else parseSimple (c2 :: r2)
      else .error .unbalancedParens

/-- Parse the children of an and/or filter up to the closing
parenthesis (consumed). -/
def parseSet : Nat → List Char → Except FilterSyntaxError (List Filter × List Char)
  | 0, _ => .error .nestingTooDeep
  | fuel + 1, cs =>
    match cs with
    | [] => .error .unbalancedParens
    | c :: r =>
      if c = ')' then .ok ([], r)
      else if c = '(' then
        (parseF fuel (c :: r)).bind (fun p =>
          (parseSet fuel p.2).map (fun q => (p.1 :: q.1, q.2)))
      else .error .unbalancedParens

end

/-- Modelled from the spec: `parseFilter(filterString)` parses the
standard grammar, failing with a `FilterSyntaxError` on malformed
input and on trailing characters after the filter. -/
def parseFilter (s : String) : Except FilterSyntaxError Filter :=
  match parseF (s.data.length + 1) s.data with
  | .ok (f, []) => .ok f
  | .ok (_, _ :: _) => .error .trailingGarbage
  | .error e => .error e

mutual

/-- Well-formedness of a filter value per the data-model invariants of
§3: attribute names are non-empty attribute descriptions, substring
components are canonical (no present-but-empty initial or final part)
and at least one substring component is present. -/
def Filter.wfB : Filter → Bool
  | .equality a _ => attrOk a
  | .presence a => attrOk a
  | .substring a i anyf f =>
    attrOk a && decide (i ≠ some eStr) && decide (f ≠ some eStr) &&
      (i.isSome || ! anyf.isEmpty || f.isSome)
  | .greaterOrEqual a _ => attrOk a
  | .lessOrEqual a _ => attrOk a
  | .approximate a _ => attrOk a
  | .and fs => wfListB fs
  | .or fs => wfListB fs
  | .not f => f.wfB

/-- Well-formedness of an ordered sequence of child filters. -/
def wfListB : List Filter → Bool
  | [] => true
  | f :: fs => f.wfB && wfListB fs

end

mutual

/-- Modelled from the spec: the substring data-model invariant — every
substring node has at least one of its initial, any, final components
present — checked recursively through a filter. -/
def noEmptySub : Filter → Bool
  | .substring _ i anyf f => (i.isSome || ! anyf.isEmpty || f.isSome)
  | .and fs => noEmptySubL fs
  | .or fs => noEmptySubL fs
  | .not f => noEmptySub f
  | _ => true

/-- The substring invariant checked through an ordered sequence of
child filters. -/
def noEmptySubL : List Filter → Bool
  | [] => true
  | f :: fs => noEmptySub f && noEmptySubL fs

end

/-- The source constructor shape of `SubstringFilter`: the `initial`
option is required, `any` and `final` are optional. -/
def mkSubstringFilter (attr initial : String) (anyParts : List String)
    (fin : Option String) : Filter :=
  .substring attr (some initial) anyParts fin

mutual

/-- Structural size of a filter, bounding the parser fuel its printed
form needs. -/
def fsize : Filter → Nat
  | .and fs => fsizeL fs + 1
  | .or fs => fsizeL fs + 1
  | .not f => fsize f + 1
  | _ => 1

/-- Structural size of an ordered sequence of child filters. -/
def fsizeL : List Filter → Nat
  | [] => 1
  | f :: fs => fsize f + fsizeL fs + 1

end

/-! ## Round trip of the filter string syntax -/

/-- The token sequence denoted by a fragment list: the fragments with
stars between them. -/
def tokensOf (frags : List (List Char)) : List VTok :=
  List.intercalate [VTok.star] (frags.map (fun v => v.map VTok.chr))

theorem escList_cons (c : Char) (v : List Char) :
    escList (c :: v) = escChar c ++ escList v := by
  simp [escList]

theorem readVal_close (r : List Char) : readVal (')' :: r) = .ok ([], r) := by
  unfold readVal
  simp

theorem readVal_star (k : List Char) (ts : List VTok) (r : List Char)
    (h : readVal k = .ok (ts, r)) :
    readVal ('*' :: k) = .ok (VTok.star :: ts, r) := by
  unfold readVal
  simp [h, Except.map]

theorem readVal_esc (v : List Char) (k : List Char) (ts : List VTok) (r : List Char)
    (h : readVal k = .ok (ts, r)) :
    readVal (escList v ++ k) = .ok (v.map VTok.chr ++ ts, r) := by
  induction v with
  | nil => simpa [escList] using h
  | cons c v ih =>
    rw [escList_cons]
    by_cases hc : specialChar c = true
    · have hcc : escChar c = ['\\', c] := by simp [escChar, hc]
      rw [hcc, List.cons_append, List.cons_append]
      unfold readVal
      simp [ih, Except.map]
    · have hcc : escChar c = [c] := by simp [escChar, hc]
      rw [hcc, List.cons_append]
      have hs := hc
      simp only [specialChar, Bool.or_eq_true, decide_eq_true_eq, not_or] at hs
      obtain ⟨⟨⟨h1, h2⟩, h3⟩, h4⟩ := hs
      unfold readVal
      simp [h1, h2, h3, h4, ih, Except.map]

theorem intercalate_singleton {α : Type} (sep x : List α) :
    List.intercalate sep [x] = x := by
  simp [List.intercalate]

theorem intercalate_cons2 {α : Type} (sep x y : List α) (rest : List (List α)) :
    List.intercalate sep (x :: y :: rest) =
      x ++ sep ++ List.intercalate sep (y :: rest) := by
  simp [List.intercalate, List.intersperse]

theorem readVal_frags (frags : List (List Char)) (r : List Char) (hne : frags ≠ []) :
    readVal (List.intercalate ['*'] (frags.map escList) ++ ')' :: r) =
      .ok (tokensOf frags, r) := by
  induction frags with
  | nil => exact absurd rfl hne
  | cons v rest ih =>
    cases rest with
    | nil =>
      simp only [List.map_cons, List.map_nil, intercalate_singleton, tokensOf]
      have hr := readVal_esc v (')' :: r) [] r (readVal_close r)
      simpa using hr
    | cons v2 rest2 =>
      simp only [List.map_cons, intercalate_cons2, tokensOf, List.append_assoc,
        List.cons_append, List.nil_append]
      have h2 := ih (by simp)
      simp only [tokensOf] at h2
      have h1 := readVal_star _ _ _ h2
      have h0 := readVal_esc v _ _ _ h1
      simpa using h0

theorem splitStars_ne_nil (ts : List VTok) : splitStars ts ≠ [] := by
  induction ts with
  | nil => simp [splitStars]
  | cons t ts ih =>
    cases t with
    | star => simp [splitStars]
    | chr c =>
      simp only [splitStars]
      match hs : splitStars ts with
      | [] => exact absurd hs ih
      | f :: fs => simp

theorem splitStars_chrs (v : List Char) (ts : List VTok) (f : List Char)
    (fs : List (List Char)) (h : splitStars ts = f :: fs) :
    splitStars (v.map VTok.chr ++ ts) = (v ++ f) :: fs := by
  induction v with
  | nil => simpa using h
  | cons c v ih =>
    simp only [List.map_cons, List.cons_append, splitStars, List.append_eq]
    rw [ih]

theorem splitStars_tokensOf (frags : List (List Char)) (hne : frags ≠ []) :
    splitStars (tokensOf frags) = frags := by
  induction frags with
  | nil => exact absurd rfl hne
  | cons v rest ih =>
    cases rest with
    | nil =>
      simp only [tokensOf, List.map_cons, List.map_nil, intercalate_singleton]
      have h0 : splitStars ([] : List VTok) = [] :: [] := rfl
      have := splitStars_chrs v [] [] [] h0
      simpa using this
    | cons v2 rest2 =>
      simp only [tokensOf, List.map_cons, intercalate_cons2, List.append_assoc,
        List.cons_append, List.nil_append]
      have h2 := ih (by simp)
      simp only [tokensOf] at h2
      have hstar : splitStars (VTok.star ::
          List.intercalate [VTok.star] ((v2 :: rest2).map (fun w => w.map VTok.chr))) =
          [] :: v2 :: rest2 := by
        simp only [splitStars]
        rw [h2]
      have := splitStars_chrs v _ _ _ hstar
      simpa using this

theorem singleFrag_chrs (v : List Char) : singleFrag (v.map VTok.chr) = .ok v := by
  induction v with
  | nil => rfl
  | cons c v ih => simp [singleFrag, ih, Except.map]

theorem takeWhile_app (p : Char → Bool) (l1 : List Char) (c : Char) (l2 : List Char)
    (h1 : ∀ x ∈ l1, p x = true) (hc : p c = false) :
    (l1 ++ c :: l2).takeWhile p = l1 := by
  induction l1 with
  | nil => simp [List.takeWhile_cons, hc]
  | cons a l ih =>
    simp only [List.cons_append, List.takeWhile_cons, h1 a (List.mem_cons_self a l),
      if_true]
    rw [ih (fun x hx => h1 x (List.mem_cons_of_mem a hx))]

theorem dropWhile_app (p : Char → Bool) (l1 : List Char) (c : Char) (l2 : List Char)
    (h1 : ∀ x ∈ l1, p x = true) (hc : p c = false) :
    (l1 ++ c :: l2).dropWhile p = c :: l2 := by
  induction l1 with
  | nil => simp [List.dropWhile_cons, hc]
  | cons a l ih =>
    simp only [List.cons_append, List.dropWhile_cons, h1 a (List.mem_cons_self a l),
      if_true]
    exact ih (fun x hx => h1 x (List.mem_cons_of_mem a hx))

theorem attrOk_chars (a : String) (ha : attrOk a = true) :
    a.data ≠ [] ∧ ∀ x ∈ a.data, attrChar x = true := by
  simp only [attrOk, Bool.and_eq_true, Bool.not_eq_true', List.isEmpty_eq_false,
    List.all_eq_true] at ha
  exact ⟨ha.1, ha.2⟩

theorem map_mk_data (l : List String) :
    (l.map (fun s => s.data)).map (fun v => String.mk v) = l := by
  induction l with
  | nil => rfl
  | cons s l ih => simp [ih]

theorem filterOfFrags_one (a : String) (v : List Char) :
    filterOfFrags a [v] = .ok (.equality a (String.mk v)) := rfl

theorem filterOfFrags_sub (a : String) (x r0 : List Char) (rrest : List (List Char))
    (hno : ¬ (x = [] ∧ r0 :: rrest = [[]])) :
    filterOfFrags a (x :: r0 :: rrest) =
      .ok (.substring a (optOfFrag x)
        ((r0 :: rrest).dropLast.map (fun v => String.mk v))
        (optOfFrag ((r0 :: rrest).getLastD []))) := by
  simp only [filterOfFrags]
  rw [if_neg hno]

theorem optOfFrag_of (i : Option String) (hi : i ≠ some eStr) :
    optOfFrag (fragOfOpt i) = i := by
  cases i with
  | none => rfl
  | some s =>
    have hs : s.data ≠ [] := by
      intro hd
      apply hi
      cases s with
      | mk d =>
        simp only at hd
        rw [hd]
        rfl
    simp only [optOfFrag, fragOfOpt]
    rw [if_neg (by simpa using hs)]

theorem fragOfOpt_empty_iff (i : Option String) (hi : i ≠ some eStr) :
    fragOfOpt i = [] ↔ i = none := by
  cases i with
  | none => simp [fragOfOpt]
  | some s =>
    have hs : s.data ≠ [] := by
      intro hd
      apply hi
      cases s with
      | mk d =>
        simp only at hd
        rw [hd]
        rfl
    simp [fragOfOpt, hs]

theorem filterOfFrags_fragsOf (a : String) (i : Option String) (anyf : List String)
    (f : Option String) (hi : i ≠ some eStr) (hf : f ≠ some eStr)
    (hone : (i.isSome || ! anyf.isEmpty || f.isSome) = true) :
    filterOfFrags a (fragsOf i anyf f) = .ok (.substring a i anyf f) := by
  cases anyf with
  | nil =>
    have hform : fragsOf i [] f = fragOfOpt i :: fragOfOpt f :: [] := by
      simp [fragsOf]
    rw [hform, filterOfFrags_sub]
    · have h1 : [fragOfOpt f].getLastD ([] : List Char) = fragOfOpt f := rfl
      simp only [List.dropLast_single, List.map_nil, h1,
        optOfFrag_of i hi, optOfFrag_of f hf]
    · rintro ⟨hx, hy⟩
      rw [fragOfOpt_empty_iff i hi] at hx
      have hy2 : fragOfOpt f = [] := by
        injection hy with hy1 hy2
      rw [fragOfOpt_empty_iff f hf] at hy2
      subst hx
      subst hy2
      simp at hone
  | cons a0 arest =>
    have hform : fragsOf i (a0 :: arest) f =
        fragOfOpt i :: a0.data :: (arest.map (fun s => s.data) ++ [fragOfOpt f]) := by
      simp [fragsOf]
    rw [hform, filterOfFrags_sub]
    · have hsplit : a0.data :: (arest.map (fun s => s.data) ++ [fragOfOpt f]) =
          (a0.data :: arest.map (fun s => s.data)) ++ [fragOfOpt f] := by
        simp
      rw [hsplit, List.dropLast_concat]
      have hlast : ((a0.data :: arest.map (fun s => s.data)) ++
          [fragOfOpt f]).getLastD [] = fragOfOpt f :=
        List.getLastD_concat [] (fragOfOpt f) (a0.data :: arest.map (fun s => s.data))
      rw [hlast, optOfFrag_of i hi, optOfFrag_of f hf]
      have hmk : ((a0.data :: arest.map (fun s => s.data)).map (fun v => String.mk v)) =
          a0 :: arest := by
        have hmaps := map_mk_data (a0 :: arest)
        simpa using hmaps
      rw [hmk]
    · rintro ⟨hx, hy⟩
      have htail : arest.map (fun s => s.data) ++ [fragOfOpt f] = [] := by
        injection hy with hy1 hy2
      simp at htail

theorem opDispatch_eq (a : String) (r : List Char) :
    opDispatch a ('=' :: r) = parseEqBody a r := by
  unfold opDispatch
  simp

theorem opDispatch_ge (a : String) (r : List Char) :
    opDispatch a ('>' :: '=' :: r) = parseOrdBody Filter.greaterOrEqual a r := by
  unfold opDispatch
  simp

theorem opDispatch_le (a : String) (r : List Char) :
    opDispatch a ('<' :: '=' :: r) = parseOrdBody Filter.lessOrEqual a r := by
  unfold opDispatch
  simp

theorem opDispatch_approx (a : String) (r : List Char) :
    opDispatch a ('~' :: '=' :: r) = parseOrdBody Filter.approximate a r := by
  unfold opDispatch
  simp

theorem parseEqBody_frags (a : String) (frags : List (List Char)) (rest : List Char)
    (hne : frags ≠ []) :
    parseEqBody a (List.intercalate ['*'] (frags.map escList) ++ ')' :: rest) =
      (filterOfFrags a frags).map (fun f => (f, rest)) := by
  unfold parseEqBody
  rw [readVal_frags frags rest hne]
  simp only [Except.bind]
  rw [splitStars_tokensOf frags hne]

theorem parseOrdBody_val (build : String → String → Filter) (a v : String)
    (rest : List Char) :
    parseOrdBody build a (escList v.data ++ ')' :: rest) = .ok (build a v, rest) := by
  unfold parseOrdBody
  rw [readVal_esc v.data (')' :: rest) [] rest (readVal_close rest)]
  simp only [Except.bind]
  rw [List.append_nil, singleFrag_chrs]
  simp [Except.map]

theorem parseSimple_attr (a : String) (c : Char) (tail : List Char)
    (ha : attrOk a = true) (hc : attrChar c = false) :
    parseSimple (a.data ++ c :: tail) = opDispatch a (c :: tail) := by
  obtain ⟨hnil, hmem⟩ := attrOk_chars a ha
  unfold parseSimple
  rw [takeWhile_app attrChar a.data c tail hmem hc,
    dropWhile_app attrChar a.data c tail hmem hc,
    if_neg (by simpa using hnil)]

theorem parseF_and (fuel : Nat) (r2 : List Char) :
    parseF (fuel + 1) ('(' :: '&' :: r2) =
      (parseSet fuel r2).map (fun p => (.and p.1, p.2)) := by
  unfold parseF
  simp

theorem parseF_or (fuel : Nat) (r2 : List Char) :
    parseF (fuel + 1) ('(' :: '|' :: r2) =
      (parseSet fuel r2).map (fun p => (.or p.1, p.2)) := by
  unfold parseF
  simp

theorem parseF_not (fuel : Nat) (r2 : List Char) :
    parseF (fuel + 1) ('(' :: '!' :: r2) =
      (parseF fuel r2).bind (fun p =>
        match p.2 with
        | [] => .error .unbalancedParens
        | c3 :: r4 =>
          if c3 = ')' then .ok (.not p.1, r4)
          else .error .unbalancedParens) := by
  conv_lhs => rw [parseF.eq_def]
  simp

theorem parseF_enter (fuel : Nat) (c2 : Char) (r2 : List Char)
    (h1 : c2 ≠ '&') (h2 : c2 ≠ '|') (h3 : c2 ≠ '!') :
    parseF (fuel + 1) ('(' :: c2 :: r2) = parseSimple (c2 :: r2) := by
  unfold parseF
  simp [h1, h2, h3]

theorem parseSet_close (fuel : Nat) (r : List Char) :
    parseSet (fuel + 1) (')' :: r) = .ok ([], r) := by
  unfold parseSet
  simp

theorem parseSet_open (fuel : Nat) (r : List Char) :
    parseSet (fuel + 1) ('(' :: r) =
      (parseF fuel ('(' :: r)).bind (fun p =>
        (parseSet fuel p.2).map (fun q => (p.1 :: q.1, q.2))) := by
  conv_lhs => rw [parseSet.eq_def]
  simp

theorem printFilter_head (f : Filter) : ∃ t, printFilter f = '(' :: t := by
  cases f <;> exact ⟨_, rfl⟩

theorem fsize_pos (f : Filter) : 1 ≤ fsize f := by
  cases f <;> simp [fsize]

theorem fsizeL_pos (fs : List Filter) : 1 ≤ fsizeL fs := by
  cases fs <;> simp [fsizeL]

theorem attrChar_not_comp (c : Char) (hc : attrChar c = true) :
    c ≠ '&' ∧ c ≠ '|' ∧ c ≠ '!' := by
  refine ⟨?_, ?_, ?_⟩ <;> intro he <;> rw [he] at hc <;> exact absurd hc (by decide)

theorem parseF_attr (fuel : Nat) (a : String) (tail : List Char)
    (ha : attrOk a = true) :
    parseF (fuel + 1) ('(' :: (a.data ++ tail)) = parseSimple (a.data ++ tail) := by
  obtain ⟨hnil, hmem⟩ := attrOk_chars a ha
  cases hd : a.data with
  | nil => exact absurd hd hnil
  | cons c0 atail =>
    have hc0 : attrChar c0 = true := by
      refine hmem c0 ?_
      rw [hd]
      exact List.mem_cons_self c0 atail
    obtain ⟨h1, h2, h3⟩ := attrChar_not_comp c0 hc0
    exact parseF_enter fuel c0 (atail ++ tail) h1 h2 h3

theorem parse_print_aux (fuel : Nat) :
    (∀ f rest, Filter.wfB f = true → fsize f ≤ fuel →
      parseF fuel (printFilter f ++ rest) = .ok (f, rest)) ∧
    (∀ fs rest, wfListB fs = true → fsizeL fs ≤ fuel →
      parseSet fuel (printFilterList fs ++ ')' :: rest) = .ok (fs, rest)) := by
  induction fuel with
  | zero =>
    constructor
    · intro f rest _ hsz
      have := fsize_pos f
      omega
    · intro fs rest _ hsz
      have := fsizeL_pos fs
      omega
  | succ fuel ih =>
    obtain ⟨ih1, ih2⟩ := ih
    constructor
    · intro f rest hwf hsz
      cases f with
      | equality a v =>
        have ha : attrOk a = true := by simpa [Filter.wfB] using hwf
        have hform : printFilter (.equality a v) ++ rest =
            '(' :: (a.data ++ '=' ::
              (List.intercalate ['*'] ([v.data].map escList) ++ ')' :: rest)) := by
          simp [printFilter, escStr, intercalate_singleton]
        rw [hform, parseF_attr fuel a _ ha,
          parseSimple_attr a '=' _ ha (by decide), opDispatch_eq,
          parseEqBody_frags a [v.data] rest (by simp), filterOfFrags_one]
        rfl
      | presence a =>
        have ha : attrOk a = true := by simpa [Filter.wfB] using hwf
        have hform : printFilter (.presence a) ++ rest =
            '(' :: (a.data ++ '=' :: ('*' :: ')' :: rest)) := by
          simp [printFilter]
        rw [hform, parseF_attr fuel a _ ha,
          parseSimple_attr a '=' _ ha (by decide), opDispatch_eq]
        have hfr : ('*' :: ')' :: rest : List Char) =
            List.intercalate ['*'] (([[], []] : List (List Char)).map escList) ++
              ')' :: rest := rfl
        rw [hfr, parseEqBody_frags a [[], []] rest (by simp)]
        have hpres : filterOfFrags a [[], []] = .ok (.presence a) := rfl
        rw [hpres]
        rfl
      | substring a i anyf fl =>
        have hw := hwf
        simp only [Filter.wfB, Bool.and_eq_true, decide_eq_true_eq] at hw
        obtain ⟨⟨⟨ha, hi⟩, hf⟩, hone⟩ := hw
        have hform : printFilter (.substring a i anyf fl) ++ rest =
            '(' :: (a.data ++ '=' ::
              (List.intercalate ['*'] ((fragsOf i anyf fl).map escList) ++
                ')' :: rest)) := by
          simp [printFilter]
        rw [hform, parseF_attr fuel a _ ha,
          parseSimple_attr a '=' _ ha (by decide), opDispatch_eq,
          parseEqBody_frags a (fragsOf i anyf fl) rest (by simp [fragsOf]),
          filterOfFrags_fragsOf a i anyf fl hi hf hone]
        rfl
      | greaterOrEqual a v =>
        have ha : attrOk a = true := by simpa [Filter.wfB] using hwf
        have hform : printFilter (.greaterOrEqual a v) ++ rest =
            '(' :: (a.data ++ '>' :: '=' :: (escList v.data ++ ')' :: rest)) := by
          simp [printFilter, escStr]
        rw [hform, parseF_attr fuel a _ ha,
          parseSimple_attr a '>' _ ha (by decide), opDispatch_ge,
          parseOrdBody_val Filter.greaterOrEqual a v rest]
      | lessOrEqual a v =>
        have ha : attrOk a = true := by simpa [Filter.wfB] using hwf
        have hform : printFilter (.lessOrEqual a v) ++ rest =
            '(' :: (a.data ++ '<' :: '=' :: (escList v.data ++ ')' :: rest)) := by
          simp [printFilter, escStr]
        rw [hform, parseF_attr fuel a _ ha,
          parseSimple_attr a '<' _ ha (by decide), opDispatch_le,
          parseOrdBody_val Filter.lessOrEqual a v rest]
      | approximate a v =>
        have ha : attrOk a = true := by simpa [Filter.wfB] using hwf
        have hform : printFilter (.approximate a v) ++ rest =
            '(' :: (a.data ++ '~' :: '=' :: (escList v.data ++ ')' :: rest)) := by
          simp [printFilter, escStr]
        rw [hform, parseF_attr fuel a _ ha,
          parseSimple_attr a '~' _ ha (by decide), opDispatch_approx,
          parseOrdBody_val Filter.approximate a v rest]
      | and fs =>
        have hw : wfListB fs = true := by simpa [Filter.wfB] using hwf
        have hs2 : fsizeL fs ≤ fuel := by
          simp only [fsize] at hsz
          omega
        have hform : printFilter (.and fs) ++ rest =
            '(' :: '&' :: (printFilterList fs ++ ')' :: rest) := by
          simp [printFilter]
        rw [hform, parseF_and, ih2 fs rest hw hs2]
        rfl
      | or fs =>
        have hw : wfListB fs = true := by simpa [Filter.wfB] using hwf
        have hs2 : fsizeL fs ≤ fuel := by
          simp only [fsize] at hsz
          omega
        have hform : printFilter (.or fs) ++ rest =
            '(' :: '|' :: (printFilterList fs ++ ')' :: rest) := by
          simp [printFilter]
        rw [hform, parseF_or, ih2 fs rest hw hs2]
        rfl
      | not f2 =>
        have hw : Filter.wfB f2 = true := by simpa [Filter.wfB] using hwf
        have hs2 : fsize f2 ≤ fuel := by
          simp only [fsize] at hsz
          omega
        have hform : printFilter (.not f2) ++ rest =
            '(' :: '!' :: (printFilter f2 ++ ')' :: rest) := by
          simp [printFilter]
        rw [hform, parseF_not, ih1 f2 (')' :: rest) hw hs2]
        rfl
    · intro fs rest hwf hsz
      cases fs with
      | nil =>
        have hform : printFilterList ([] : List Filter) ++ ')' :: rest =
            ')' :: rest := by
          simp [printFilterList]
        rw [hform, parseSet_close]
      | cons f2 fs2 =>
        have hw := hwf
        simp only [wfListB, Bool.and_eq_true] at hw
        obtain ⟨hw1, hw2⟩ := hw
        have hsz2 : fsize f2 ≤ fuel ∧ fsizeL fs2 ≤ fuel := by
          simp only [fsizeL] at hsz
          constructor <;> omega
        obtain ⟨t, ht⟩ := printFilter_head f2
        have hform : printFilterList (f2 :: fs2) ++ ')' :: rest =
            '(' :: (t ++ (printFilterList fs2 ++ ')' :: rest)) := by
          simp [printFilterList, ht]
        rw [hform, parseSet_open]
        have hback : ('(' : Char) :: (t ++ (printFilterList fs2 ++ ')' :: rest)) =
            printFilter f2 ++ (printFilterList fs2 ++ ')' :: rest) := by
          rw [ht, List.cons_append]
        rw [hback, ih1 f2 _ hw1 hsz2.1]
        simp only [Except.bind]
        rw [ih2 fs2 rest hw2 hsz2.2]
        rfl

theorem fsize_le_aux (n : Nat) :
    (∀ f, fsize f ≤ n → fsize f + 1 ≤ (printFilter f).length) ∧
    (∀ fs, fsizeL fs ≤ n → fsizeL fs ≤ (printFilterList fs).length + 1) := by
  induction n with
  | zero =>
    constructor
    · intro f hsz
      have := fsize_pos f
      omega
    · intro fs hsz
      have := fsizeL_pos fs
      omega
  | succ n ih =>
    obtain ⟨ih1, ih2⟩ := ih
    constructor
    · intro f hsz
      cases f with
      | equality a v =>
        simp only [fsize, printFilter, List.length_cons, List.length_append]
        omega
      | presence a =>
        simp only [fsize, printFilter, List.length_cons, List.length_append]
        omega
      | substring a i anyf fl =>
        simp only [fsize, printFilter, List.length_cons, List.length_append]
        omega
      | greaterOrEqual a v =>
        simp only [fsize, printFilter, List.length_cons, List.length_append]
        omega
      | lessOrEqual a v =>
        simp only [fsize, printFilter, List.length_cons, List.length_append]
        omega
      | approximate a v =>
        simp only [fsize, printFilter, List.length_cons, List.length_append]
        omega
      | and fs =>
        have hb := ih2 fs (by simp only [fsize] at hsz; omega)
        simp only [fsize, printFilter, List.length_cons, List.length_append]
        omega
      | or fs =>
        have hb := ih2 fs (by simp only [fsize] at hsz; omega)
        simp only [fsize, printFilter, List.length_cons, List.length_append]
        omega
      | not f2 =>
        have hb := ih1 f2 (by simp only [fsize] at hsz; omega)
        simp only [fsize, printFilter, List.length_cons, List.length_append]
        omega
    · intro fs hsz
      cases fs with
      | nil => simp [fsizeL, printFilterList]
      | cons f2 fs2 =>
        have hb1 := ih1 f2 (by simp only [fsizeL] at hsz; omega)
        have hb2 := ih2 fs2 (by simp only [fsizeL] at hsz; omega)
        simp only [fsizeL, printFilterList, List.length_append]
        omega

theorem parseFilter_toFilterString (f : Filter) (h : Filter.wfB f = true) :
    parseFilter (Filter.toFilterString f) = .ok f := by
  unfold parseFilter Filter.toFilterString
  have hb := (fsize_le_aux (fsize f)).1 f (le_refl _)
  have hr := (parse_print_aux ((String.mk (printFilter f)).data.length + 1)).1
    f [] h (by simpa using by omega : fsize f ≤ (String.mk (printFilter f)).data.length + 1)
  rw [List.append_nil] at hr
  rw [show (String.mk (printFilter f)).data = printFilter f from rfl] at hr ⊢
  rw [hr]

/-! ## The substring invariant is preserved by parsing -/

theorem optOfFrag_none (x : List Char) (h : optOfFrag x = none) : x = [] := by
  by_cases hx : x.isEmpty
  · exact List.isEmpty_iff.mp hx
  · simp [optOfFrag, hx] at h

theorem filterOfFrags_inv (a : String) (frags : List (List Char)) (f : Filter)
    (h : filterOfFrags a frags = .ok f) : noEmptySub f = true := by
  match frags with
  | [] => simp [filterOfFrags] at h
  | [v] =>
    rw [filterOfFrags_one] at h
    injection h with h2
    subst h2
    rfl
  | x :: r0 :: rrest =>
    simp only [filterOfFrags] at h
    by_cases hc : x = [] ∧ r0 :: rrest = [[]]
    · rw [if_pos hc] at h
      injection h with h2
      subst h2
      rfl
    · rw [if_neg hc] at h
      injection h with h2
      subst h2
      cases hox : optOfFrag x with
      | some s => simp [noEmptySub, hox]
      | none =>
        have hx : x = [] := optOfFrag_none x hox
        cases rrest with
        | cons y ys =>
          simp [noEmptySub, hox, List.dropLast]
        | nil =>
          have hr0 : r0 ≠ [] := by
            intro hr
            exact hc ⟨hx, by rw [hr]⟩
          have hgl : ([r0] : List (List Char)).getLastD [] = r0 := rfl
          simp only [noEmptySub, hox, List.dropLast_single, List.map_nil, hgl]
          simp [optOfFrag, List.isEmpty_iff, hr0]

theorem parseEqBody_inv (a : String) (r : List Char) (f : Filter) (r2 : List Char)
    (h : parseEqBody a r = .ok (f, r2)) : noEmptySub f = true := by
  unfold parseEqBody at h
  cases hrv : readVal r with
  | error e => rw [hrv] at h; simp [Except.bind] at h
  | ok p =>
    rw [hrv] at h
    simp only [Except.bind] at h
    cases hff : filterOfFrags a (splitStars p.1) with
    | error e => rw [hff] at h; simp [Except.map] at h
    | ok f0 =>
      rw [hff] at h
      simp only [Except.map, Except.ok.injEq, Prod.mk.injEq] at h
      obtain ⟨hf0, _⟩ := h
      subst hf0
      exact filterOfFrags_inv a (splitStars p.1) f0 hff

theorem parseOrdBody_inv (build : String → String → Filter) (a : String)
    (r : List Char) (f : Filter) (r2 : List Char)
    (hbuild : ∀ x y, noEmptySub (build x y) = true)
    (h : parseOrdBody build a r = .ok (f, r2)) : noEmptySub f = true := by
  unfold parseOrdBody at h
  cases hrv : readVal r with
  | error e => rw [hrv] at h; simp [Except.bind] at h
  | ok p =>
    rw [hrv] at h
    simp only [Except.bind] at h
    cases hsf : singleFrag p.1 with
    | error e => rw [hsf] at h; simp [Except.map] at h
    | ok v =>
      rw [hsf] at h
      simp only [Except.map, Except.ok.injEq, Prod.mk.injEq] at h
      obtain ⟨hf0, _⟩ := h
      subst hf0
      exact hbuild a (String.mk v)

theorem opDispatch_inv (a : String) (r : List Char) (f : Filter) (r2 : List Char)
    (h : opDispatch a r = .ok (f, r2)) : noEmptySub f = true := by
  match r with
  | [] => simp [opDispatch] at h
  | c :: r0 =>
    simp only [opDispatch] at h
    by_cases h1 : c = '='
    · rw [if_pos h1] at h
      exact parseEqBody_inv a r0 f r2 h
    · rw [if_neg h1] at h
      by_cases h2 : c = '>'
      · rw [if_pos h2] at h
        match r0 with
        | [] => simp at h
        | c2 :: r1 =>
          simp only [] at h
          by_cases h4 : c2 = '='
          · rw [if_pos h4] at h
            exact parseOrdBody_inv Filter.greaterOrEqual a r1 f r2
              (fun x y => rfl) h
          · rw [if_neg h4] at h
            simp at h
      · rw [if_neg h2] at h
        by_cases h3 : c = '<'
        · rw [if_pos h3] at h
          match r0 with
          | [] => simp at h
          | c2 :: r1 =>
            simp only [] at h
            by_cases h4 : c2 = '='
            · rw [if_pos h4] at h
              exact parseOrdBody_inv Filter.lessOrEqual a r1 f r2
                (fun x y => rfl) h
            · rw [if_neg h4] at h
              simp at h
        · rw [if_neg h3] at h
          by_cases h5 : c = '~'
          · rw [if_pos h5] at h
            match r0 with
            | [] => simp at h
            | c2 :: r1 =>
              simp only [] at h
              by_cases h4 : c2 = '='
              · rw [if_pos h4] at h
                exact parseOrdBody_inv Filter.approximate a r1 f r2
                  (fun x y => rfl) h
              · rw [if_neg h4] at h
                simp at h
          · rw [if_neg h5] at h
            simp at h

theorem parseSimple_inv (cs : List Char) (f : Filter) (r2 : List Char)
    (h : parseSimple cs = .ok (f, r2)) : noEmptySub f = true := by
  unfold parseSimple at h
  by_cases he : (cs.takeWhile attrChar).isEmpty
  · rw [if_pos he] at h
    simp at h
  · rw [if_neg he] at h
    exact opDispatch_inv _ _ f r2 h

theorem parse_inv_aux (fuel : Nat) :
    (∀ cs f rest, parseF fuel cs = .ok (f, rest) → noEmptySub f = true) ∧
    (∀ cs fs rest, parseSet fuel cs = .ok (fs, rest) → noEmptySubL fs = true) := by
  induction fuel with
  | zero =>
    constructor
    · intro cs f rest h
      simp [parseF] at h
    · intro cs fs rest h
      simp [parseSet] at h
  | succ fuel ih =>
    obtain ⟨ih1, ih2⟩ := ih
    constructor
    · intro cs f rest h
      match cs with
      | [] => rw [parseF.eq_def] at h; simp at h
      | c :: r =>
        rw [parseF.eq_def] at h
        simp only [] at h
        by_cases hp : c = '('
        · rw [if_pos hp] at h
          match r with
          | [] => simp at h
          | c2 :: r2 =>
            simp only [] at h
            by_cases ha : c2 = '&'
            · rw [if_pos ha] at h
              cases hps : parseSet fuel r2 with
              | error e => rw [hps] at h; simp [Except.map] at h
              | ok p =>
                rw [hps] at h
                simp only [Except.map, Except.ok.injEq, Prod.mk.injEq] at h
                obtain ⟨hf0, _⟩ := h
                subst hf0
                exact ih2 r2 p.1 p.2 (by rw [hps])
            · rw [if_neg ha] at h
              by_cases ho : c2 = '|'
              · rw [if_pos ho] at h
                cases hps : parseSet fuel r2 with
                | error e => rw [hps] at h; simp [Except.map] at h
                | ok p =>
                  rw [hps] at h
                  simp only [Except.map, Except.ok.injEq, Prod.mk.injEq] at h
                  obtain ⟨hf0, _⟩ := h
                  subst hf0
                  exact ih2 r2 p.1 p.2 (by rw [hps])
              · rw [if_neg ho] at h
                by_cases hn : c2 = '!'
                · rw [if_pos hn] at h
                  cases hpf : parseF fuel r2 with
                  | error e => rw [hpf] at h; simp [Except.bind] at h
                  | ok p =>
                    rw [hpf] at h
                    simp only [Except.bind] at h
                    match hp2 : p.2 with
                    | [] => rw [hp2] at h; simp at h
                    | c3 :: r4 =>
                      rw [hp2] at h
                      simp only [] at h
                      by_cases hc3 : c3 = ')'
                      · rw [if_pos hc3] at h
                        simp only [Except.ok.injEq, Prod.mk.injEq] at h
                        obtain ⟨hf0, _⟩ := h
                        subst hf0
                        exact ih1 r2 p.1 p.2 (by rw [hpf])
                      · rw [if_neg hc3] at h
                        simp at h
                · rw [if_neg hn] at h
                  exact parseSimple_inv _ f rest h
        · rw [if_neg hp] at h
          simp at h
    · intro cs fs rest h
      match cs with
      | [] => rw [parseSet.eq_def] at h; simp at h
      | c :: r =>
        rw [parseSet.eq_def] at h
        simp only [] at h
        by_cases hc : c = ')'
        · rw [if_pos hc] at h
          simp only [Except.ok.injEq, Prod.mk.injEq] at h
          obtain ⟨hf0, _⟩ := h
          subst hf0
          rfl
        · rw [if_neg hc] at h
          by_cases hp : c = '('
          · rw [if_pos hp] at h
            cases hpf : parseF fuel (c :: r) with
            | error e => rw [hpf] at h; simp [Except.bind] at h
            | ok p =>
              rw [hpf] at h
              simp only [Except.bind] at h
              cases hps : parseSet fuel p.2 with
              | error e => rw [hps] at h; simp [Except.map] at h
              | ok q =>
                rw [hps] at h
                simp only [Except.map, Except.ok.injEq, Prod.mk.injEq] at h
                obtain ⟨hf0, _⟩ := h
                subst hf0
                have hh1 := ih1 (c :: r) p.1 p.2 (by rw [hpf])
                have hh2 := ih2 p.2 q.1 q.2 (by rw [hps])
                simp [noEmptySubL, hh1, hh2]
          · rw [if_neg hp] at h
            simp at h

theorem parseFilter_inv (s : String) (f : Filter)
    (h : parseFilter s = .ok f) : noEmptySub f = true := by
  unfold parseFilter at h
  cases hpf : parseF (s.data.length + 1) s.data with
  | error e => rw [hpf] at h; simp at h
  | ok p =>
    rw [hpf] at h
    obtain ⟨f0, r0⟩ := p
    cases r0 with
    | nil =>
      simp only [] at h
      injection h with h2
      subst h2
      exact (parse_inv_aux (s.data.length + 1)).1 s.data f0 [] hpf
    | cons x xs =>
      simp only [] at h
      exact absurd h (by simp)

/-! ## Claim theorems for the filter model -/

/-- Sample strings for concrete instances. -/
def cnSample : String := "cn"

/-- Sample value string. -/
def fooSample : String := "foo"

/-- Sample attribute name. -/
def ocSample : String := "objectClass"

/-- A concrete well-formed filter used as a witness instance. -/
def sampleFilter : Filter :=
  .and [.equality cnSample fooSample, .not (.presence ocSample)]

/-- An unbalanced filter string (missing closing parenthesis). -/
def unbalancedSample : String := "(cn=foo"

/-- A filter string with an unknown operator (a bare greater-than). -/
def unknownOpSample : String := "(cn>foo)"

/-- A sample attribute set with one single-valued attribute. -/
def sampleEntry : AttributeSet := [(cnSample, [fooSample])]

/-- Claim C4: parsing the printed string form of every constructible
filter returns an equal filter, and parsing fails with a
FilterSyntaxError on an empty filter, unbalanced parentheses, or an
unknown operator. -/
theorem spec_C4_filter_parse_print (f : Filter) (h : Filter.wfB f = true) :
    parseFilter (Filter.toFilterString f) = .ok f ∧
    parseFilter eStr = .error .emptyFilter ∧
    parseFilter unbalancedSample = .error .unbalancedParens ∧
    parseFilter unknownOpSample = .error .unknownOperator :=
  ⟨parseFilter_toFilterString f h, rfl, rfl, rfl⟩

/-- Witness for C4 at a concrete composite filter. -/
theorem spec_C4_filter_parse_print_witness :
    parseFilter (Filter.toFilterString sampleFilter) = .ok sampleFilter ∧
    parseFilter eStr = .error .emptyFilter ∧
    parseFilter unbalancedSample = .error .unbalancedParens ∧
    parseFilter unknownOpSample = .error .unknownOperator :=
  spec_C4_filter_parse_print sampleFilter (by rfl)

/-- Claim C5: `matches` follows the stated semantics — a presence
filter is true iff the attribute is present with at least one value,
and/or/not compose recursively with standard boolean semantics, an
empty and-list evaluates to true and an empty or-list to false. -/
theorem spec_C5_matches_semantics (a : String) (e : AttributeSet) (g f : Filter)
    (fs : List Filter) :
    (Filter.matches (.presence a) e = true ↔ ∃ p ∈ e, p.1 = a ∧ p.2 ≠ []) ∧
    Filter.matches (.and []) e = true ∧
    Filter.matches (.or []) e = false ∧
    Filter.matches (.and (g :: fs)) e =
      (Filter.matches g e && Filter.matches (.and fs) e) ∧
    Filter.matches (.or (g :: fs)) e =
      (Filter.matches g e || Filter.matches (.or fs) e) ∧
    Filter.matches (.not f) e = ! Filter.matches f e := by
  refine ⟨?_, rfl, rfl, rfl, rfl, rfl⟩
  simp [Filter.matches, List.any_eq_true]

/-- Witness for C5 at a concrete attribute set. -/
theorem spec_C5_matches_semantics_witness :
    (Filter.matches (.presence cnSample) sampleEntry = true ↔
      ∃ p ∈ sampleEntry, p.1 = cnSample ∧ p.2 ≠ []) ∧
    Filter.matches (.and []) sampleEntry = true ∧
    Filter.matches (.or []) sampleEntry = false ∧
    Filter.matches (.and (sampleFilter :: [])) sampleEntry =
      (Filter.matches sampleFilter sampleEntry &&
        Filter.matches (.and []) sampleEntry) ∧
    Filter.matches (.or (sampleFilter :: [])) sampleEntry =
      (Filter.matches sampleFilter sampleEntry ||
        Filter.matches (.or []) sampleEntry) ∧
    Filter.matches (.not sampleFilter) sampleEntry =
      ! Filter.matches sampleFilter sampleEntry :=
  spec_C5_matches_semantics cnSample sampleEntry sampleFilter sampleFilter []

/-! ## Claim theorems for the codec, error taxonomy and session layer -/

/-- Claim C6: BER decode fails with incomplete data exactly when the
buffer is a truncated prefix of a valid encoding (recoverable by
supplying more bytes), fails with malformed data exactly when the
tag/length structure cannot be completed into a valid encoding, and the
two failure modes never overlap. -/
theorem spec_C6_decode_failure_modes (buf : List Nat) :
    (decodeTLV buf = .error .malformedData ↔ ¬ Recoverable buf) ∧
    (decodeTLV buf = .error .incompleteData ↔
      (Recoverable buf ∧ ∀ t c r, decodeTLV buf ≠ .ok (t, c, r))) ∧
    ¬ (decodeTLV buf = .error .incompleteData ∧
        decodeTLV buf = .error .malformedData) := by
  refine ⟨⟨?_, ?_⟩, ⟨?_, ?_⟩, ?_⟩
  · rintro hm ⟨ext, t, c, r, hdec⟩
    rw [decodeTLV_malformed_extend buf ext hm] at hdec
    simp at hdec
  · intro hnr
    cases hd : decodeTLV buf with
    | error e =>
      cases e with
      | incompleteData =>
        exact absurd (decodeTLV_incomplete_extend buf hd) hnr
      | malformedData => rfl
    | ok v =>
      refine absurd ⟨[], v.1, v.2.1, v.2.2, ?_⟩ hnr
      rw [List.append_nil, hd]
  · intro hi
    refine ⟨decodeTLV_incomplete_extend buf hi, ?_⟩
    intro t c r hok
    rw [hok] at hi
    simp at hi
  · rintro ⟨hrec, hnok⟩
    cases hd : decodeTLV buf with
    | error e =>
      cases e with
      | incompleteData => rfl
      | malformedData =>
        obtain ⟨ext, t, c, r, hdec⟩ := hrec
        rw [decodeTLV_malformed_extend buf ext hd] at hdec
        simp at hdec
    | ok v =>
      exact absurd hd (hnok v.1 v.2.1 v.2.2)
  · rintro ⟨h1, h2⟩
    rw [h1] at h2
    simp at h2

/-- A concrete truncated buffer (an element announcing five content
bytes, none supplied). -/
def bufSample : List Nat := [2, 5]

/-- Witness for C6 at a concrete truncated buffer. -/
theorem spec_C6_decode_failure_modes_witness :
    (decodeTLV bufSample = .error .malformedData ↔ ¬ Recoverable bufSample) ∧
    (decodeTLV bufSample = .error .incompleteData ↔
      (Recoverable bufSample ∧ ∀ t c r, decodeTLV bufSample ≠ .ok (t, c, r))) ∧
    ¬ (decodeTLV bufSample = .error .incompleteData ∧
        decodeTLV bufSample = .error .malformedData) :=
  spec_C6_decode_failure_modes bufSample

/-- Claim C7: BER encoding is deterministic — equal logical values
yield identical bytes, the length octets never use the
indefinite-length marker, and the produced element decodes back in
definite-length form. -/
theorem spec_C7_encode_deterministic (v w : BerValue) (hvw : v = w) :
    encodeValue v = encodeValue w ∧
    (∀ n, ∃ b bs, encodeLen n = b :: bs ∧ b ≠ 128) ∧
    decodeTLV (encodeValue v) = .ok (berTag v, berContent v, []) := by
  refine ⟨by rw [hvw], encodeLen_ne_indefinite, ?_⟩
  rw [encodeValue_eq_tlv v]
  have hdec := decodeTLV_encodeTLV (berTag v) (berContent v) []
  simpa using hdec

/-- A concrete compound BER value. -/
def berSample : BerValue := .seq [.int 5, .bool true, .octets [1, 2], .enum 300]

/-- Witness for C7 at a concrete compound value. -/
theorem spec_C7_encode_deterministic_witness :
    encodeValue berSample = encodeValue berSample ∧
    (∀ n, ∃ b bs, encodeLen n = b :: bs ∧ b ≠ 128) ∧
    decodeTLV (encodeValue berSample) =
      .ok (berTag berSample, berContent berSample, []) :=
  spec_C7_encode_deterministic berSample berSample rfl

/-- A sample diagnostic message. -/
def msgSample : String := "operation failed"

/-- A sample matched DN. -/
def dnSample : String := "dc=example,dc=com"

/-- Claim C1: `fromResultCode` maps code 49 to the
InvalidCredentialsError variant (whose declared code is 49), maps any
unknown code such as 9999 to a generic value preserving the raw
integer, and for every nonzero code the `code` field of the result
equals the input, so no information is lost. -/
theorem spec_C1_fromResultCode (message dn : String) :
    fromResultCode 49 message dn =
      some ⟨.named .invalidCredentialsError, message, dn⟩ ∧
    LDAPErrKind.code .invalidCredentialsError = 49 ∧
    fromResultCode 9999 message dn = some ⟨.other 9999, message, dn⟩ ∧
    ∀ n, n ≠ 0 → (fromResultCode n message dn).map LDAPError.code = some n := by
  refine ⟨rfl, rfl, rfl, ?_⟩
  intro n hn
  unfold fromResultCode
  rw [if_neg hn]
  cases hk : kindOfCode n with
  | some k =>
    simp only [Option.map_some']
    simp [LDAPError.code, LDAPErrVal.code, kindOfCode_code n k hk]
  | none =>
    simp [LDAPError.code, LDAPErrVal.code]

/-- Witness for C1 at a concrete unknown nonzero code. -/
theorem spec_C1_fromResultCode_witness :
    (fromResultCode 77 msgSample dnSample).map LDAPError.code = some 77 :=
  (spec_C1_fromResultCode msgSample dnSample).2.2.2 77 (by decide)

/-- Claim C10: OtherError, ConnectionError, AbandonedError and
TimeoutError all carry the identical code 80 as declared in the source,
yet remain four distinct variants with four distinct names — the
taxonomy never collapses them by code. -/
theorem spec_C10_code80_distinct_variants :
    LDAPErrKind.code .otherError = 80 ∧
    LDAPErrKind.code .connectionError = 80 ∧
    LDAPErrKind.code .abandonedError = 80 ∧
    LDAPErrKind.code .timeoutError = 80 ∧
    ([LDAPErrKind.otherError, .connectionError, .abandonedError,
      .timeoutError] : List LDAPErrKind).Pairwise (· ≠ ·) ∧
    (([LDAPErrKind.otherError, .connectionError, .abandonedError,
      .timeoutError] : List LDAPErrKind).map
        LDAPErrKind.errorName).Pairwise (· ≠ ·) := by
  refine ⟨rfl, rfl, rfl, rfl, ?_, ?_⟩ <;> decide

/-- Claim C8: on every dispatch from a well-formed session state, the
assigned messageID is nonzero, below 2^31, collides with no in-flight
ID, is registered while the counter advances past it, preserves
uniqueness of outstanding IDs, and is the first free ID in the cyclic
ascending order from the counter (so assignment is monotonically
increasing with wrap-around); dispatch fails with messageIDExhausted
exactly when all 2^31 - 1 usable IDs are in flight. -/
theorem spec_C8_messageID_invariant (st : SessionState) (hwf : SessionWF st) :
    (∀ i st2, dispatch st = .ok (i, st2) →
      0 < i ∧ i < idModulus ∧ i ∉ st.pending ∧
      st2.pending = i :: st.pending ∧ st2.nextID = i + 1 ∧ SessionWF st2 ∧
      ∃ k, i = wrapNext^[k] (normId st.nextID) ∧
        ∀ j < k, wrapNext^[j] (normId st.nextID) ∈ st.pending) ∧
    (dispatch st = .error .messageIDExhausted ↔
      ∀ i, 0 < i → i < idModulus → i ∈ st.pending) := by
  obtain ⟨hnd, hrange⟩ := hwf
  obtain ⟨hn1, hn2⟩ := normId_bounds st.nextID
  constructor
  · intro i st2 hdisp
    unfold dispatch at hdisp
    cases hscan : scanFree st.pending (normId st.nextID) (idModulus - 1) with
    | none => rw [hscan] at hdisp; simp at hdisp
    | some j =>
      rw [hscan] at hdisp
      simp only [Except.ok.injEq, Prod.mk.injEq] at hdisp
      obtain ⟨hij, hst2⟩ := hdisp
      subst hij
      subst hst2
      obtain ⟨hb1, hb2⟩ := scanFree_some_bounds st.pending (idModulus - 1)
        (normId st.nextID) j hn1 hn2 hscan
      obtain ⟨hni, k, hk, hall⟩ := scanFree_some st.pending (idModulus - 1)
        (normId st.nextID) j hscan
      refine ⟨hb1, hb2, hni, rfl, rfl, ⟨List.nodup_cons.mpr ⟨hni, hnd⟩, ?_⟩,
        k, hk, hall⟩
      intro x hx
      rcases List.mem_cons.mp hx with hx1 | hx2
      · subst hx1
        exact ⟨hb1, hb2⟩
      · exact hrange x hx2
  · constructor
    · intro herr i hi1 hi2
      by_contra hfree
      unfold dispatch at herr
      cases hscan : scanFree st.pending (normId st.nextID) (idModulus - 1) with
      | some j => rw [hscan] at herr; simp at herr
      | none =>
        have hd := cycDist_lt (normId st.nextID) i hn1 hn2 hi1 hi2
        have hsome := scanFree_isSome st.pending i hi1 hi2 hfree (idModulus - 1)
          (normId st.nextID) hn1 hn2 hd
        rw [hscan] at hsome
        simp at hsome
    · intro hfull
      unfold dispatch
      rw [scanFree_none_of_full st.pending hfull (idModulus - 1)
        (normId st.nextID) hn1 hn2]

/-- Witness for C8: dispatch from a concrete state with two in-flight
IDs assigns the free ID 5. -/
theorem spec_C8_messageID_invariant_witness :
    0 < 5 ∧ 5 < idModulus ∧ (5 : Nat) ∉ ([6, 2] : List Nat) ∧
    (SessionState.mk 6 [5, 6, 2]).pending = 5 :: ([6, 2] : List Nat) ∧
    (SessionState.mk 6 [5, 6, 2]).nextID = 5 + 1 ∧
    SessionWF ⟨6, [5, 6, 2]⟩ ∧
    ∃ k, 5 = wrapNext^[k] (normId 5) ∧
      ∀ j < k, wrapNext^[j] (normId 5) ∈ ([6, 2] : List Nat) :=
  (spec_C8_messageID_invariant ⟨5, [6, 2]⟩ (by decide)).1 5 ⟨6, [5, 6, 2]⟩ (by rfl)

/-- Claim C3: for pending requests with pairwise-distinct messageIDs
and responses arriving in any permutation of those IDs, every response
is delivered to exactly the pending request registered under its
messageID — the delivered results depend only on the registration
table, never on send order, and the matching entry is unique. -/
theorem spec_C3_response_correlation (pend : List (Nat × Nat)) (resps : List Nat)
    (hids : (pend.map Prod.fst).Nodup) (hperm : resps.Perm (pend.map Prod.fst)) :
    deliverResponses pend resps = resps.map (fun i => (i, lookupReq pend i)) ∧
    (∀ i ∈ resps, ∃ t, lookupReq pend i = some t ∧ (i, t) ∈ pend) ∧
    (∀ i t1 t2, (i, t1) ∈ pend → (i, t2) ∈ pend → t1 = t2) := by
  have hnd : resps.Nodup := hperm.nodup_iff.mpr hids
  refine ⟨deliverResponses_spec resps pend hids hnd, ?_,
    fun i t1 t2 h1 h2 => nodup_fst_unique pend hids i t1 t2 h1 h2⟩
  intro i hi
  have himem : i ∈ pend.map Prod.fst := hperm.mem_iff.mp hi
  obtain ⟨p, hp, hfst⟩ := List.mem_map.mp himem
  have hfind : (pend.find? (fun q => q.1 == i)).isSome :=
    List.find?_isSome.mpr ⟨p, hp, by simp [hfst]⟩
  obtain ⟨q, hq⟩ := Option.isSome_iff_exists.mp hfind
  have hqm := List.mem_of_find?_eq_some hq
  have hqf := List.find?_some hq
  have hq1 : q.1 = i := by simpa using hqf
  refine ⟨q.2, by simp [lookupReq, hq], ?_⟩
  rw [← hq1]
  exact hqm

/-- A concrete pending-request table. -/
def pendSample : List (Nat × Nat) := [(1, 10), (2, 20), (3, 30)]

/-- The reverse of the dispatch order of `pendSample`. -/
def respsSample : List Nat := [3, 2, 1]

/-- Witness for C3: delivering responses in the reverse of dispatch
order still resolves each to its own registered request. -/
theorem spec_C3_response_correlation_witness :
    deliverResponses pendSample respsSample =
      respsSample.map (fun i => (i, lookupReq pendSample i)) ∧
    (∀ i ∈ respsSample, ∃ t, lookupReq pendSample i = some t ∧
      (i, t) ∈ pendSample) ∧
    (∀ i t1 t2, (i, t1) ∈ pendSample → (i, t2) ∈ pendSample → t1 = t2) :=
  spec_C3_response_correlation pendSample respsSample (by decide) (by decide)

/-! ## Message model: typed LDAP protocol messages over BER

Modelled from the spec (§4.3): each message variant serializes to an
envelope SEQUENCE holding the messageID INTEGER and the protocol
operation under its application tag (0x60 bind request, 0x61 bind
response, 0x63 search request, 0x64 search result entry, 0x65 search
result done, 0x66 modify request, 0x6E compare request, 0x42 unbind,
0x77/0x78 extended request/response); decoding dispatches on the tag
and fails with an unknown-operation error on an unrecognized tag. -/

/-- Bytes of a string, one byte per character code. -/
def strBytes (s : String) : List Nat := s.data.map Char.toNat

/-- String rebuilt from character-code bytes. -/
def strOfBytes (bs : List Nat) : String := String.mk (bs.map Char.ofNat)

theorem strOfBytes_strBytes (s : String) : strOfBytes (strBytes s) = s := by
  unfold strOfBytes strBytes
  rw [List.map_map]
  have hmap : s.data.map (Char.ofNat ∘ Char.toNat) = s.data := by
    have hid : (Char.ofNat ∘ Char.toNat) = id := by
      funext c
      exact Char.ofNat_toNat c
    rw [hid, List.map_id]
  rw [hmap]

theorem bytesToNat_intBytes (n : Nat) : bytesToNat (intBytes n) = n := by
  unfold intBytes
  by_cases h : n = 0
  · simp [h, bytesToNat]
  · rw [if_neg h, bytesToNat_natToBytes]

/-- An OCTET STRING (or context-tagged string) element. -/
def encOctet (tag : Nat) (s : String) : List Nat := encodeTLV tag (strBytes s)

/-- A nonnegative INTEGER or ENUMERATED element. -/
def encNat (tag n : Nat) : List Nat := encodeTLV tag (intBytes n)

/-- A BOOLEAN element. -/
def encBool (b : Bool) : List Nat := encodeTLV 1 [if b then 255 else 0]

/-- Decode one element and check its tag. -/
def getTLV (tag : Nat) (bs : List Nat) : Except DecErr (List Nat × List Nat) :=
  (decodeTLV bs).bind (fun p =>
    if p.1 = tag then .ok (p.2.1, p.2.2) else .error .malformedData)

/-- Decode a string-valued element with the expected tag. -/
def getStr (tag : Nat) (bs : List Nat) : Except DecErr (String × List Nat) :=
  (getTLV tag bs).map (fun p => (strOfBytes p.1, p.2))

/-- Decode an unsigned-integer element with the expected tag. -/
def getNat (tag : Nat) (bs : List Nat) : Except DecErr (Nat × List Nat) :=
  (getTLV tag bs).map (fun p => (bytesToNat p.1, p.2))

/-- Decode a BOOLEAN element. -/
def getBool (bs : List Nat) : Except DecErr (Bool × List Nat) :=
  (getTLV 1 bs).bind (fun p =>
    match p.1 with
    | [b] => .ok (decide (b ≠ 0), p.2)
    | _ => .error .malformedData)

theorem getTLV_enc (tag : Nat) (c rest : List Nat) :
    getTLV tag (encodeTLV tag c ++ rest) = .ok (c, rest) := by
  unfold getTLV
  rw [decodeTLV_encodeTLV]
  simp [Except.bind]

theorem getStr_enc (tag : Nat) (s : String) (rest : List Nat) :
    getStr tag (encOctet tag s ++ rest) = .ok (s, rest) := by
  unfold getStr encOctet
  rw [getTLV_enc]
  simp [Except.map, strOfBytes_strBytes]

theorem getNat_enc (tag n : Nat) (rest : List Nat) :
    getNat tag (encNat tag n ++ rest) = .ok (n, rest) := by
  unfold getNat encNat
  rw [getTLV_enc]
  simp [Except.map, bytesToNat_intBytes]

theorem getBool_enc (b : Bool) (rest : List Nat) :
    getBool (encBool b ++ rest) = .ok (b, rest) := by
  unfold getBool encBool
  rw [getTLV_enc]
  cases b <;> simp [Except.bind]

/-- Concatenated string elements sharing one tag. -/
def encStrs (tag : Nat) (l : List String) : List Nat :=
  (l.map (encOctet tag)).flatten

/-- Decode string elements until the bytes run out. -/
def getStrs (tag : Nat) (fuel : Nat) (bs : List Nat) : Except DecErr (List String) :=
  match bs with
  | [] => .ok []
  | _ :: _ =>
    match fuel with
    | 0 => .error .malformedData
    | fuel + 1 =>
      (getStr tag bs).bind (fun p =>
        (getStrs tag fuel p.2).map (fun l => p.1 :: l))

theorem encodeTLV_ne_nil (t : Nat) (c : List Nat) : encodeTLV t c ≠ [] := by
  simp [encodeTLV]

theorem encodeTLV_length (t : Nat) (c : List Nat) :
    2 ≤ (encodeTLV t c).length := by
  unfold encodeTLV encodeLen
  by_cases h : c.length < 128 <;> simp [h, List.length_append]

theorem getStrs_enc (tag : Nat) (l : List String) :
    ∀ fuel, l.length ≤ fuel → getStrs tag fuel (encStrs tag l) = .ok l := by
  induction l with
  | nil => intro fuel _; simp [encStrs, getStrs]
  | cons s l ih =>
    intro fuel hle
    have hform : encStrs tag (s :: l) = encOctet tag s ++ encStrs tag l := by
      simp [encStrs]
    match fuel with
    | 0 => simp at hle
    | fuel + 1 =>
      rw [hform]
      have hne : encOctet tag s ++ encStrs tag l ≠ [] := by
        unfold encOctet
        intro hc
        exact encodeTLV_ne_nil tag (strBytes s) (List.append_eq_nil.mp hc).1
      rw [getStrs.eq_def]
      match hm : encOctet tag s ++ encStrs tag l with
      | [] => exact absurd hm hne
      | x :: xs =>
        simp only []
        rw [← hm, getStr_enc]
        simp only [Except.bind]
        rw [ih fuel (by simpa using hle)]
        rfl

/-- Modelled from the spec (§3): an attribute is a type with an
ordered sequence of values. -/
structure AttrV where
  type : String
  vals : List String
deriving DecidableEq, Repr

/-- An attribute as a SEQUENCE of its type and a SET of its values. -/
def encAttr (a : AttrV) : List Nat :=
  encodeTLV 0x30 (encOctet 4 a.type ++ encodeTLV 0x31 (encStrs 4 a.vals))

/-- Decode one attribute. -/
def getAttr (bs : List Nat) : Except DecErr (AttrV × List Nat) :=
  (getTLV 0x30 bs).bind (fun p =>
    (getStr 4 p.1).bind (fun q =>
      (getTLV 0x31 q.2).bind (fun r =>
        if r.2 = [] then
          (getStrs 4 (r.1.length + 1) r.1).map (fun vs => (⟨q.1, vs⟩, p.2))
        else .error .malformedData)))

theorem encStrs_length (tag : Nat) (l : List String) :
    l.length ≤ (encStrs tag l).length := by
  induction l with
  | nil => simp [encStrs]
  | cons s l ih =>
    have hform : encStrs tag (s :: l) = encOctet tag s ++ encStrs tag l := by
      simp [encStrs]
    rw [hform]
    have h2 := encodeTLV_length tag (strBytes s)
    simp only [List.length_cons, List.length_append]
    unfold encOctet
    omega

theorem getAttr_enc (a : AttrV) (rest : List Nat) :
    getAttr (encAttr a ++ rest) = .ok (a, rest) := by
  unfold getAttr encAttr
  rw [getTLV_enc]
  simp only [Except.bind]
  rw [getStr_enc]
  simp only [Except.bind]
  have hg : getTLV 0x31 (encodeTLV 0x31 (encStrs 4 a.vals)) =
      .ok (encStrs 4 a.vals, []) := by
    have h2 := getTLV_enc 0x31 (encStrs 4 a.vals) []
    rwa [List.append_nil] at h2
  rw [hg]
  simp only [Except.bind, if_true]
  rw [getStrs_enc 4 a.vals (((encStrs 4 a.vals).length + 1))
    (by have := encStrs_length 4 a.vals; omega)]
  rfl

/-- Concatenated attribute encodings. -/
def encAttrs (l : List AttrV) : List Nat := (l.map encAttr).flatten

/-- Decode attributes until the bytes run out. -/
def getAttrs (fuel : Nat) (bs : List Nat) : Except DecErr (List AttrV) :=
  match bs with
  | [] => .ok []
  | _ :: _ =>
    match fuel with
    | 0 => .error .malformedData
    | fuel + 1 =>
      (getAttr bs).bind (fun p =>
        (getAttrs fuel p.2).map (fun l => p.1 :: l))

theorem getAttrs_enc (l : List AttrV) :
    ∀ fuel, l.length ≤ fuel → getAttrs fuel (encAttrs l) = .ok l := by
  induction l with
  | nil => intro fuel _; simp [encAttrs, getAttrs]
  | cons a l ih =>
    intro fuel hle
    have hform : encAttrs (a :: l) = encAttr a ++ encAttrs l := by
      simp [encAttrs]
    match fuel with
    | 0 => simp at hle
    | fuel + 1 =>
      rw [hform]
      have hne : encAttr a ++ encAttrs l ≠ [] := by
        unfold encAttr
        intro hc
        exact encodeTLV_ne_nil _ _ (List.append_eq_nil.mp hc).1
      rw [getAttrs.eq_def]
      match hm : encAttr a ++ encAttrs l with
      | [] => exact absurd hm hne
      | x :: xs =>
        simp only []
        rw [← hm, getAttr_enc]
        simp only [Except.bind]
        rw [ih fuel (by simpa using hle)]
        rfl

/-- Modelled from the spec (§3): a modify operation is add, delete or
replace. -/
inductive ChangeOp where
  | add
  | delete
  | replace
deriving DecidableEq, Repr

/-- The ENUMERATED value of a modify operation. -/
def ChangeOp.toNat : ChangeOp → Nat
  | .add => 0
  | .delete => 1
  | .replace => 2

/-- Decode a modify operation from its ENUMERATED value. -/
def changeOpOfNat (n : Nat) : Except DecErr ChangeOp :=
  if n = 0 then .ok .add
  else if n = 1 then .ok .delete
  else if n = 2 then .ok .replace
  else .error .malformedData

theorem changeOpOfNat_toNat (op : ChangeOp) :
    changeOpOfNat op.toNat = .ok op := by
  cases op <;> rfl

/-- Modelled from the spec (§3): a Change holds an operation, an
attribute type and the values. -/
structure ChangeV where
  op : ChangeOp
  modType : String
  modVals : List String
deriving DecidableEq, Repr

/-- A change as a SEQUENCE of its operation and its modification. -/
def encChange (c : ChangeV) : List Nat :=
  encodeTLV 0x30 (encNat 10 c.op.toNat ++ encAttr ⟨c.modType, c.modVals⟩)

/-- Decode one change. -/
def getChange (bs : List Nat) : Except DecErr (ChangeV × List Nat) :=
  (getTLV 0x30 bs).bind (fun p =>
    (getNat 10 p.1).bind (fun q =>
      (changeOpOfNat q.1).bind (fun op =>
        (getAttr q.2).bind (fun r =>
          if r.2 = [] then .ok (⟨op, r.1.type, r.1.vals⟩, p.2)
          else .error .malformedData))))

theorem getChange_enc (c : ChangeV) (rest : List Nat) :
    getChange (encChange c ++ rest) = .ok (c, rest) := by
  unfold getChange encChange
  rw [getTLV_enc]
  simp only [Except.bind]
  rw [getNat_enc]
  simp only [Except.bind]
  rw [changeOpOfNat_toNat]
  simp only [Except.bind]
  have hg : getAttr (encAttr ⟨c.modType, c.modVals⟩ ++ ([] : List Nat)) =
      .ok (⟨c.modType, c.modVals⟩, []) := getAttr_enc ⟨c.modType, c.modVals⟩ []
  rw [List.append_nil] at hg
  rw [hg]
  rfl

/-- Concatenated change encodings. -/
def encChanges (l : List ChangeV) : List Nat := (l.map encChange).flatten

/-- Decode changes until the bytes run out. -/
def getChanges (fuel : Nat) (bs : List Nat) : Except DecErr (List ChangeV) :=
  match bs with
  | [] => .ok []
  | _ :: _ =>
    match fuel with
    | 0 => .error .malformedData
    | fuel + 1 =>
      (getChange bs).bind (fun p =>
        (getChanges fuel p.2).map (fun l => p.1 :: l))

theorem getChanges_enc (l : List ChangeV) :
    ∀ fuel, l.length ≤ fuel → getChanges fuel (encChanges l) = .ok l := by
  induction l with
  | nil => intro fuel _; simp [encChanges, getChanges]
  | cons c l ih =>
    intro fuel hle
    have hform : encChanges (c :: l) = encChange c ++ encChanges l := by
      simp [encChanges]
    match fuel with
    | 0 => simp at hle
    | fuel + 1 =>
      rw [hform]
      have hne : encChange c ++ encChanges l ≠ [] := by
        unfold encChange
        intro hc
        exact encodeTLV_ne_nil _ _ (List.append_eq_nil.mp hc).1
      rw [getChanges.eq_def]
      match hm : encChange c ++ encChanges l with
      | [] => exact absurd hm hne
      | x :: xs =>
        simp only []
        rw [← hm, getChange_enc]
        simp only [Except.bind]
        rw [ih fuel (by simpa using hle)]
        rfl

/-- Modelled from the spec (§3): a search scope. -/
inductive Scope where
  | base
  | one
  | sub
deriving DecidableEq, Repr

/-- The ENUMERATED value of a scope. -/
def Scope.toNat : Scope → Nat
  | .base => 0
  | .one => 1
  | .sub => 2

/-- Decode a scope from its ENUMERATED value. -/
def scopeOfNat (n : Nat) : Except DecErr Scope :=
  if n = 0 then .ok .base
  else if n = 1 then .ok .one
  else if n = 2 then .ok .sub
  else .error .malformedData

theorem scopeOfNat_toNat (sc : Scope) : scopeOfNat sc.toNat = .ok sc := by
  cases sc <;> rfl

/-- Modelled from the spec (§3): an LDAPResult carries a status code, a
matched DN, an error message and referrals. -/
structure ResultV where
  status : Nat
  matchedDN : String
  errorMessage : String
  referrals : List String
deriving DecidableEq, Repr

/-- The common LDAPResult fields: status ENUMERATED, matchedDN,
errorMessage, and the referral SEQUENCE under context tag 3. -/
def encResult (r : ResultV) : List Nat :=
  encNat 10 r.status ++ encOctet 4 r.matchedDN ++ encOctet 4 r.errorMessage ++
    encodeTLV 0xA3 (encStrs 4 r.referrals)

/-- Decode the common LDAPResult fields. -/
def getResult (bs : List Nat) : Except DecErr (ResultV × List Nat) :=
  (getNat 10 bs).bind (fun s =>
    (getStr 4 s.2).bind (fun m =>
      (getStr 4 m.2).bind (fun e =>
        (getTLV 0xA3 e.2).bind (fun rf =>
          (getStrs 4 (rf.1.length + 1) rf.1).map (fun refs =>
            (⟨s.1, m.1, e.1, refs⟩, rf.2))))))

theorem getResult_enc (r : ResultV) (rest : List Nat) :
    getResult (encResult r ++ rest) = .ok (r, rest) := by
  unfold getResult encResult
  rw [List.append_assoc, List.append_assoc, List.append_assoc, getNat_enc]
  simp only [Except.bind]
  rw [getStr_enc]
  simp only [Except.bind]
  rw [getStr_enc]
  simp only [Except.bind]
  rw [getTLV_enc]
  simp only [Except.bind]
  rw [getStrs_enc 4 r.referrals ((encStrs 4 r.referrals).length + 1)
    (by have := encStrs_length 4 r.referrals; omega)]
  rfl

/-! ## Filter serialization to BER (context-specific tag per kind) -/

theorem takeWhile_all_of {α : Type} (p : α → Bool) (l : List α)
    (h : ∀ x ∈ l, p x = true) : l.takeWhile p = l := by
  induction l with
  | nil => rfl
  | cons a l ih =>
    simp only [List.takeWhile_cons, h a (List.mem_cons_self a l), if_true]
    rw [ih (fun x hx => h x (List.mem_cons_of_mem a hx))]

theorem dropWhile_all_of {α : Type} (p : α → Bool) (l : List α)
    (h : ∀ x ∈ l, p x = true) : l.dropWhile p = [] := by
  induction l with
  | nil => rfl
  | cons a l ih =>
    simp only [List.dropWhile_cons, h a (List.mem_cons_self a l), if_true]
    exact ih (fun x hx => h x (List.mem_cons_of_mem a hx))

theorem takeWhile_app_of {α : Type} (p : α → Bool) (l1 : List α) (c : α)
    (l2 : List α) (h1 : ∀ x ∈ l1, p x = true) (hc : p c = false) :
    (l1 ++ c :: l2).takeWhile p = l1 := by
  induction l1 with
  | nil => simp [List.takeWhile_cons, hc]
  | cons a l ih =>
    simp only [List.cons_append, List.takeWhile_cons, h1 a (List.mem_cons_self a l),
      if_true]
    rw [ih (fun x hx => h1 x (List.mem_cons_of_mem a hx))]

theorem dropWhile_app_of {α : Type} (p : α → Bool) (l1 : List α) (c : α)
    (l2 : List α) (h1 : ∀ x ∈ l1, p x = true) (hc : p c = false) :
    (l1 ++ c :: l2).dropWhile p = c :: l2 := by
  induction l1 with
  | nil => simp [List.dropWhile_cons, hc]
  | cons a l ih =>
    simp only [List.cons_append, List.dropWhile_cons, h1 a (List.mem_cons_self a l),
      if_true]
    exact ih (fun x hx => h1 x (List.mem_cons_of_mem a hx))

/-- The item contributed by an optional substring component. -/
def optItem (tag : Nat) : Option String → List (Nat × String)
  | some s => [(tag, s)]
  | none => []

/-- The tagged items of a substring assertion: the initial part under
context tag 0, the any parts under tag 1, the final part under tag 2. -/
def subItems (i : Option String) (anyf : List String) (f : Option String) :
    List (Nat × String) :=
  optItem 128 i ++ anyf.map (fun s => (129, s)) ++ optItem 130 f

/-- One tagged substring item. -/
def encItem (q : Nat × String) : List Nat := encOctet q.1 q.2

/-- Concatenated tagged substring items. -/
def encItems (items : List (Nat × String)) : List Nat :=
  (items.map encItem).flatten

/-- Decode tagged string items until the bytes run out. -/
def getTagStrs (fuel : Nat) (bs : List Nat) :
    Except DecErr (List (Nat × String)) :=
  match bs with
  | [] => .ok []
  | _ :: _ =>
    match fuel with
    | 0 => .error .malformedData
    | fuel + 1 =>
      (decodeTLV bs).bind (fun p =>
        (getTagStrs fuel p.2.2).map (fun l => (p.1, strOfBytes p.2.1) :: l))

/-- Split a leading initial component (context tag 0) off the item
list. -/
def splitInit (items : List (Nat × String)) :
    Option String × List (Nat × String) :=
  match items with
  | [] => (none, [])
  | q :: r => if q.1 = 128 then (some q.2, r) else (none, q :: r)

/-- Finish assembling substring components: after the any parts only an
optional final component (context tag 2) may remain, and at least one
component must be present. -/
def compsFin (i : Option String) (anys : List String)
    (items2 : List (Nat × String)) :
    Except DecErr (Option String × List String × Option String) :=
  match items2 with
  | [] =>
    if i.isSome || ! anys.isEmpty then .ok (i, anys, none)
    else .error .malformedData
  | q :: r =>
    if q.1 = 130 ∧ r = [] then .ok (i, anys, some q.2)
    else .error .malformedData

/-- Assemble the components of a substring assertion from its decoded
item list, enforcing the at-least-one-component invariant. -/
def compsOfItems (items : List (Nat × String)) :
    Except DecErr (Option String × List String × Option String) :=
  compsFin (splitInit items).1
    (((splitInit items).2.takeWhile (fun q => q.1 == 129)).map (fun q => q.2))
    ((splitInit items).2.dropWhile (fun q => q.1 == 129))

/-- Decode an attribute-value assertion (two octet strings). -/
def decodeAVA (build : String → String → Filter) (content : List Nat) :
    Except DecErr Filter :=
  (getStr 4 content).bind (fun a =>
    (getStr 4 a.2).bind (fun v =>
      if v.2 = [] then .ok (build a.1 v.1) else .error .malformedData))

/-- Decode a substring assertion: attribute, then the component
SEQUENCE. -/
def decodeSubstr (content : List Nat) : Except DecErr Filter :=
  (getStr 4 content).bind (fun a =>
    (getTLV 0x30 a.2).bind (fun sq =>
      if sq.2 = [] then
        (getTagStrs (sq.1.length + 1) sq.1).bind (fun items =>
          (compsOfItems items).map (fun c => .substring a.1 c.1 c.2.1 c.2.2))
      else .error .malformedData))

mutual

/-- Modelled from the spec (§4.2): serialization of a filter to BER
with the protocol's context-specific tag per filter kind (0xA0 and,
0xA1 or, 0xA2 not, 0xA3 equality, 0xA4 substrings, 0xA5
greater-or-equal, 0xA6 less-or-equal, 0x87 present, 0xA8 approximate). -/
def encFilterB : Filter → List Nat
  | .and fs => encodeTLV 0xA0 (encFilterListB fs)
  | .or fs => encodeTLV 0xA1 (encFilterListB fs)
  | .not f => encodeTLV 0xA2 (encFilterB f)
  | .equality a v => encodeTLV 0xA3 (encOctet 4 a ++ encOctet 4 v)
  | .substring a i anyf f =>
    encodeTLV 0xA4 (encOctet 4 a ++
      encodeTLV 0x30 (encItems (subItems i anyf f)))
  | .greaterOrEqual a v => encodeTLV 0xA5 (encOctet 4 a ++ encOctet 4 v)
  | .lessOrEqual a v => encodeTLV 0xA6 (encOctet 4 a ++ encOctet 4 v)
  | .presence a => encodeTLV 0x87 (strBytes a)
  | .approximate a v => encodeTLV 0xA8 (encOctet 4 a ++ encOctet 4 v)

/-- Concatenated BER encodings of and/or children. -/
def encFilterListB : List Filter → List Nat
  | [] => []
  | f :: fs => encFilterB f ++ encFilterListB fs

end

mutual

/-- Modelled from the spec (§4.2): BER decoding of a filter,
dispatching on the context-specific tag; the fuel bounds nesting depth
and the caller supplies more than any input can consume. -/
def decodeFilterB : Nat → List Nat → Except DecErr (Filter × List Nat)
  | 0, _ => .error .malformedData
  | fuel + 1, bs =>
    (decodeTLV bs).bind (fun p =>
      if p.1 = 0xA0 then
        (decodeFilterSetB fuel p.2.1).map (fun fs => (.and fs, p.2.2))
      else if p.1 = 0xA1 then
        (decodeFilterSetB fuel p.2.1).map (fun fs => (.or fs, p.2.2))
      else if p.1 = 0xA2 then
        (decodeFilterB fuel p.2.1).bind (fun q =>
          if q.2 = [] then .ok (.not q.1, p.2.2) else .error .malformedData)
      else if p.1 = 0xA3 then
        (decodeAVA Filter.equality p.2.1).map (fun f => (f, p.2.2))
      else if p.1 = 0xA5 then
        (decodeAVA Filter.greaterOrEqual p.2.1).map (fun f => (f, p.2.2))
      else if p.1 = 0xA6 then
        (decodeAVA Filter.lessOrEqual p.2.1).map (fun f => (f, p.2.2))
      else if p.1 = 0xA8 then
        (decodeAVA Filter.approximate p.2.1).map (fun f => (f, p.2.2))
      else if p.1 = 0x87 then .ok (.presence (strOfBytes p.2.1), p.2.2)
      else if p.1 = 0xA4 then
        (decodeSubstr p.2.1).map (fun f => (f, p.2.2))
      else .error .malformedData)

/-- Decode and/or children until the bytes run out. -/
def decodeFilterSetB : Nat → List Nat → Except DecErr (List Filter)
  | _, [] => .ok []
  | 0, _ :: _ => .error .malformedData
  | fuel + 1, bs =>
    (decodeFilterB fuel bs).bind (fun p =>
      (decodeFilterSetB fuel p.2).map (fun fs => p.1 :: fs))

end

mutual

/-- Structural size of a filter, bounding the decoder fuel its encoding
needs. -/
def fsizeB : Filter → Nat
  | .and fs => fsizeBL fs + 1
  | .or fs => fsizeBL fs + 1
  | .not f => fsizeB f + 1
  | _ => 1

/-- Structural size of a sequence of and/or children. -/
def fsizeBL : List Filter → Nat
  | [] => 0
  | f :: fs => fsizeB f + fsizeBL fs + 1

end

theorem decodeAVA_enc (build : String → String → Filter) (a v : String) :
    decodeAVA build (encOctet 4 a ++ encOctet 4 v) = .ok (build a v) := by
  unfold decodeAVA
  rw [getStr_enc]
  simp only [Except.bind]
  have hg : getStr 4 (encOctet 4 v) = .ok (v, []) := by
    have h2 := getStr_enc 4 v []
    rwa [List.append_nil] at h2
  rw [hg]
  simp only [Except.bind, if_true]

theorem getTagStrs_enc (items : List (Nat × String)) :
    ∀ fuel, items.length ≤ fuel →
      getTagStrs fuel (encItems items) = .ok items := by
  induction items with
  | nil => intro fuel _; simp [encItems, getTagStrs]
  | cons q l ih =>
    intro fuel hle
    have hform : encItems (q :: l) = encOctet q.1 q.2 ++ encItems l := by
      simp [encItems, encItem]
    match fuel with
    | 0 => simp at hle
    | fuel + 1 =>
      rw [hform]
      have hne : encOctet q.1 q.2 ++ encItems l ≠ [] := by
        unfold encOctet
        intro hc
        exact encodeTLV_ne_nil _ _ (List.append_eq_nil.mp hc).1
      rw [getTagStrs.eq_def]
      match hm : encOctet q.1 q.2 ++ encItems l with
      | [] => exact absurd hm hne
      | x :: xs =>
        simp only []
        rw [← hm]
        unfold encOctet
        rw [decodeTLV_encodeTLV]
        simp only [Except.bind]
        rw [ih fuel (by simpa using hle)]
        simp [Except.map, strOfBytes_strBytes]

theorem encItems_length (items : List (Nat × String)) :
    items.length ≤ (encItems items).length := by
  induction items with
  | nil => simp [encItems]
  | cons q l ih =>
    have hform : encItems (q :: l) = encOctet q.1 q.2 ++ encItems l := by
      simp [encItems, encItem]
    rw [hform]
    have h2 := encodeTLV_length q.1 (strBytes q.2)
    simp only [List.length_cons, List.length_append]
    unfold encOctet
    omega

theorem compsOfItems_subItems (i : Option String) (anyf : List String)
    (f : Option String)
    (hone : (i.isSome || ! anyf.isEmpty || f.isSome) = true) :
    compsOfItems (subItems i anyf f) = .ok (i, anyf, f) := by
  have hsplit : splitInit (subItems i anyf f) =
      (i, anyf.map (fun s => (129, s)) ++ optItem 130 f) := by
    cases i with
    | some s => simp [subItems, optItem, splitInit]
    | none =>
      simp only [subItems, optItem, List.nil_append]
      cases anyf with
      | cons a0 arest => simp [splitInit]
      | nil =>
        cases f with
        | some s => simp [optItem, splitInit]
        | none =>
          simp only [optItem, List.map_nil, List.nil_append, splitInit]
  have hmem : ∀ x ∈ anyf.map (fun s => ((129 : Nat), s)),
      (fun q : Nat × String => q.1 == 129) x = true := by
    intro x hx
    obtain ⟨s, _, rfl⟩ := List.mem_map.mp hx
    simp
  unfold compsOfItems
  rw [hsplit]
  cases f with
  | some s =>
    have htw : ((anyf.map (fun s => ((129 : Nat), s)) ++ optItem 130 (some s)).takeWhile
        (fun q => q.1 == 129)) = anyf.map (fun s => ((129 : Nat), s)) := by
      simp only [optItem]
      exact takeWhile_app_of _ _ _ _ hmem (by simp)
    have hdw : ((anyf.map (fun s => ((129 : Nat), s)) ++ optItem 130 (some s)).dropWhile
        (fun q => q.1 == 129)) = [(130, s)] := by
      simp only [optItem]
      exact dropWhile_app_of _ _ _ _ hmem (by simp)
    simp only [htw, hdw, List.map_map]
    have hm2 : anyf.map ((fun q : Nat × String => q.2) ∘ (fun s => ((129 : Nat), s))) =
        anyf := by
      simp
    rw [hm2]
    simp [compsFin]
  | none =>
    have happ : anyf.map (fun s => ((129 : Nat), s)) ++ optItem 130 none =
        anyf.map (fun s => ((129 : Nat), s)) := by
      simp [optItem]
    rw [happ]
    have htw := takeWhile_all_of (fun q : Nat × String => q.1 == 129) _ hmem
    have hdw := dropWhile_all_of (fun q : Nat × String => q.1 == 129) _ hmem
    simp only [htw, hdw, List.map_map]
    have hm2 : anyf.map ((fun q : Nat × String => q.2) ∘ (fun s => ((129 : Nat), s))) =
        anyf := by
      simp
    rw [hm2]
    simp only [compsFin]
    rw [if_pos (by simpa using hone)]

theorem decodeSubstr_enc (a : String) (i : Option String) (anyf : List String)
    (f : Option String)
    (hone : (i.isSome || ! anyf.isEmpty || f.isSome) = true) :
    decodeSubstr (encOctet 4 a ++
        encodeTLV 0x30 (encItems (subItems i anyf f))) =
      .ok (.substring a i anyf f) := by
  unfold decodeSubstr
  rw [getStr_enc]
  simp only [Except.bind]
  have hg : getTLV 0x30 (encodeTLV 0x30 (encItems (subItems i anyf f))) =
      .ok (encItems (subItems i anyf f), []) := by
    have h2 := getTLV_enc 0x30 (encItems (subItems i anyf f)) []
    rwa [List.append_nil] at h2
  rw [hg]
  simp only [Except.bind, if_true]
  rw [getTagStrs_enc (subItems i anyf f) _
    (by have := encItems_length (subItems i anyf f); omega)]
  simp only [Except.bind]
  rw [compsOfItems_subItems i anyf f hone]
  rfl

theorem fsizeB_pos (f : Filter) : 1 ≤ fsizeB f := by
  cases f <;> simp [fsizeB]

theorem encFilterB_ne_nil (f : Filter) : encFilterB f ≠ [] := by
  cases f <;> simp [encFilterB, encodeTLV]

theorem decodeFilterSetB_nil (fuel : Nat) : decodeFilterSetB fuel [] = .ok [] := by
  cases fuel <;> rfl

theorem noEmptySub_and (fs : List Filter) :
    noEmptySub (.and fs) = noEmptySubL fs := rfl

theorem decB_enc_aux (fuel : Nat) :
    (∀ f rest, noEmptySub f = true → fsizeB f ≤ fuel →
      decodeFilterB fuel (encFilterB f ++ rest) = .ok (f, rest)) ∧
    (∀ fs, noEmptySubL fs = true → fsizeBL fs ≤ fuel →
      decodeFilterSetB fuel (encFilterListB fs) = .ok fs) := by
  induction fuel with
  | zero =>
    constructor
    · intro f rest _ hsz
      have := fsizeB_pos f
      omega
    · intro fs hwf hsz
      cases fs with
      | nil => rfl
      | cons f2 fs2 =>
        simp only [fsizeBL] at hsz
        omega
  | succ fuel ih =>
    obtain ⟨ih1, ih2⟩ := ih
    constructor
    · intro f rest hwf hsz
      cases f with
      | and fs =>
        have hw : noEmptySubL fs = true := by simpa [noEmptySub] using hwf
        have hin := ih2 fs hw (by simp only [fsizeB] at hsz; omega)
        have hform : encFilterB (.and fs) ++ rest =
            encodeTLV 0xA0 (encFilterListB fs) ++ rest := by
          simp [encFilterB]
        rw [hform, decodeFilterB.eq_def]
        simp only []
        rw [decodeTLV_encodeTLV]
        simp [Except.bind, Except.map, hin]
      | or fs =>
        have hw : noEmptySubL fs = true := by simpa [noEmptySub] using hwf
        have hin := ih2 fs hw (by simp only [fsizeB] at hsz; omega)
        have hform : encFilterB (.or fs) ++ rest =
            encodeTLV 0xA1 (encFilterListB fs) ++ rest := by
          simp [encFilterB]
        rw [hform, decodeFilterB.eq_def]
        simp only []
        rw [decodeTLV_encodeTLV]
        simp [Except.bind, Except.map, hin]
      | not f2 =>
        have hw : noEmptySub f2 = true := by simpa [noEmptySub] using hwf
        have hin := ih1 f2 [] hw (by simp only [fsizeB] at hsz; omega)
        rw [List.append_nil] at hin
        have hform : encFilterB (.not f2) ++ rest =
            encodeTLV 0xA2 (encFilterB f2) ++ rest := by
          simp [encFilterB]
        rw [hform, decodeFilterB.eq_def]
        simp only []
        rw [decodeTLV_encodeTLV]
        simp [Except.bind, Except.map, hin]
      | equality a v =>
        have hform : encFilterB (.equality a v) ++ rest =
            encodeTLV 0xA3 (encOctet 4 a ++ encOctet 4 v) ++ rest := by
          simp [encFilterB]
        rw [hform, decodeFilterB.eq_def]
        simp only []
        rw [decodeTLV_encodeTLV]
        simp [Except.bind, Except.map, decodeAVA_enc]
      | greaterOrEqual a v =>
        have hform : encFilterB (.greaterOrEqual a v) ++ rest =
            encodeTLV 0xA5 (encOctet 4 a ++ encOctet 4 v) ++ rest := by
          simp [encFilterB]
        rw [hform, decodeFilterB.eq_def]
        simp only []
        rw [decodeTLV_encodeTLV]
        simp [Except.bind, Except.map, decodeAVA_enc]
      | lessOrEqual a v =>
        have hform : encFilterB (.lessOrEqual a v) ++ rest =
            encodeTLV 0xA6 (encOctet 4 a ++ encOctet 4 v) ++ rest := by
          simp [encFilterB]
        rw [hform, decodeFilterB.eq_def]
        simp only []
        rw [decodeTLV_encodeTLV]
        simp [Except.bind, Except.map, decodeAVA_enc]
      | approximate a v =>
        have hform : encFilterB (.approximate a v) ++ rest =
            encodeTLV 0xA8 (encOctet 4 a ++ encOctet 4 v) ++ rest := by
          simp [encFilterB]
        rw [hform, decodeFilterB.eq_def]
        simp only []
        rw [decodeTLV_encodeTLV]
        simp [Except.bind, Except.map, decodeAVA_enc]
      | presence a =>
        have hform : encFilterB (.presence a) ++ rest =
            encodeTLV 0x87 (strBytes a) ++ rest := by
          simp [encFilterB]
        rw [hform, decodeFilterB.eq_def]
        simp only []
        rw [decodeTLV_encodeTLV]
        simp [Except.bind, Except.map, strOfBytes_strBytes]
      | substring a i anyf fl =>
        have hone : (i.isSome || ! anyf.isEmpty || fl.isSome) = true := by
          simpa [noEmptySub] using hwf
        have hsub := decodeSubstr_enc a i anyf fl hone
        have hform : encFilterB (.substring a i anyf fl) ++ rest =
            encodeTLV 0xA4 (encOctet 4 a ++
              encodeTLV 0x30 (encItems (subItems i anyf fl))) ++ rest := by
          simp [encFilterB]
        rw [hform, decodeFilterB.eq_def]
        simp only []
        rw [decodeTLV_encodeTLV]
        simp [Except.bind, Except.map, hsub]
    · intro fs hwf hsz
      cases fs with
      | nil => rfl
      | cons f2 fs2 =>
        have hw := hwf
        simp only [noEmptySubL, Bool.and_eq_true] at hw
        obtain ⟨hw1, hw2⟩ := hw
        have hform : encFilterListB (f2 :: fs2) =
            encFilterB f2 ++ encFilterListB fs2 := by
          simp [encFilterListB]
        rw [hform]
        have hne : encFilterB f2 ++ encFilterListB fs2 ≠ [] := by
          intro hc
          exact encFilterB_ne_nil f2 (List.append_eq_nil.mp hc).1
        rw [decodeFilterSetB.eq_def]
        match hm : encFilterB f2 ++ encFilterListB fs2 with
        | [] => exact absurd hm hne
        | x :: xs =>
          simp only []
          rw [← hm, ih1 f2 (encFilterListB fs2) hw1
            (by simp only [fsizeBL] at hsz; omega)]
          simp only [Except.bind]
          rw [ih2 fs2 hw2 (by simp only [fsizeBL] at hsz; omega)]
          rfl

theorem fsizeB_le_enc (n : Nat) :
    (∀ f, fsizeB f ≤ n → fsizeB f + 1 ≤ (encFilterB f).length) ∧
    (∀ fs, fsizeBL fs ≤ n → fsizeBL fs ≤ (encFilterListB fs).length) := by
  induction n with
  | zero =>
    constructor
    · intro f hsz
      have := fsizeB_pos f
      omega
    · intro fs hsz
      cases fs with
      | nil => simp [fsizeBL]
      | cons f2 fs2 => simp only [fsizeBL] at hsz; omega
  | succ n ih =>
    obtain ⟨ih1, ih2⟩ := ih
    constructor
    · intro f hsz
      cases f with
      | and fs =>
        have hb := ih2 fs (by simp only [fsizeB] at hsz; omega)
        have hl := encodeTLV_length 0xA0 (encFilterListB fs)
        have hl2 : (encFilterListB fs).length + 2 ≤
            (encodeTLV 0xA0 (encFilterListB fs)).length := by
          unfold encodeTLV encodeLen
          by_cases hc : (encFilterListB fs).length < 128 <;>
            simp [hc, List.length_append]
        simp only [fsizeB, encFilterB]
        omega
      | or fs =>
        have hb := ih2 fs (by simp only [fsizeB] at hsz; omega)
        have hl2 : (encFilterListB fs).length + 2 ≤
            (encodeTLV 0xA1 (encFilterListB fs)).length := by
          unfold encodeTLV encodeLen
          by_cases hc : (encFilterListB fs).length < 128 <;>
            simp [hc, List.length_append]
        simp only [fsizeB, encFilterB]
        omega
      | not f2 =>
        have hb := ih1 f2 (by simp only [fsizeB] at hsz; omega)
        have hl2 : (encFilterB f2).length + 2 ≤
            (encodeTLV 0xA2 (encFilterB f2)).length := by
          unfold encodeTLV encodeLen
          by_cases hc : (encFilterB f2).length < 128 <;>
            simp [hc, List.length_append]
        simp only [fsizeB, encFilterB]
        omega
      | equality a v =>
        have := encodeTLV_length 0xA3 (encOctet 4 a ++ encOctet 4 v)
        simp only [fsizeB, encFilterB]
        omega
      | presence a =>
        have := encodeTLV_length 0x87 (strBytes a)
        simp only [fsizeB, encFilterB]
        omega
      | substring a i anyf fl =>
        have := encodeTLV_length 0xA4 (encOctet 4 a ++
          encodeTLV 0x30 (encItems (subItems i anyf fl)))
        simp only [fsizeB, encFilterB]
        omega
      | greaterOrEqual a v =>
        have := encodeTLV_length 0xA5 (encOctet 4 a ++ encOctet 4 v)
        simp only [fsizeB, encFilterB]
        omega
      | lessOrEqual a v =>
        have := encodeTLV_length 0xA6 (encOctet 4 a ++ encOctet 4 v)
        simp only [fsizeB, encFilterB]
        omega
      | approximate a v =>
        have := encodeTLV_length 0xA8 (encOctet 4 a ++ encOctet 4 v)
        simp only [fsizeB, encFilterB]
        omega
    · intro fs hsz
      cases fs with
      | nil => simp [fsizeBL]
      | cons f2 fs2 =>
        have hb1 := ih1 f2 (by simp only [fsizeBL] at hsz; omega)
        have hb2 := ih2 fs2 (by simp only [fsizeBL] at hsz; omega)
        simp only [fsizeBL, encFilterListB, List.length_append]
        omega

/-! ## The substring invariant through the BER decoder -/

theorem compsFin_inv (i : Option String) (anys : List String)
    (items2 : List (Nat × String))
    (c : Option String × List String × Option String)
    (h : compsFin i anys items2 = .ok c) :
    (c.1.isSome || ! c.2.1.isEmpty || c.2.2.isSome) = true := by
  unfold compsFin at h
  cases items2 with
  | nil =>
    by_cases hp : (i.isSome || ! anys.isEmpty) = true
    · rw [if_pos hp] at h
      injection h with h2
      subst h2
      simp only [Bool.or_eq_true] at hp ⊢
      tauto
    · rw [if_neg hp] at h
      exact absurd h (by simp)
  | cons q r =>
    simp only [] at h
    by_cases hp : q.1 = 130 ∧ r = []
    · rw [if_pos hp] at h
      injection h with h2
      subst h2
      simp
    · rw [if_neg hp] at h
      exact absurd h (by simp)

theorem compsOfItems_inv (items : List (Nat × String))
    (c : Option String × List String × Option String)
    (h : compsOfItems items = .ok c) :
    (c.1.isSome || ! c.2.1.isEmpty || c.2.2.isSome) = true := by
  unfold compsOfItems at h
  exact compsFin_inv _ _ _ c h

theorem decodeAVA_inv (build : String → String → Filter)
    (content : List Nat) (f : Filter)
    (h : decodeAVA build content = .ok f) : ∃ a v, f = build a v := by
  unfold decodeAVA at h
  cases hg : getStr 4 content with
  | error e => rw [hg] at h; exact absurd h (by simp [Except.bind])
  | ok a =>
    rw [hg] at h
    simp only [Except.bind] at h
    cases hv : getStr 4 a.2 with
    | error e => rw [hv] at h; exact absurd h (by simp [Except.bind])
    | ok v =>
      rw [hv] at h
      simp only [Except.bind] at h
      by_cases hr : v.2 = []
      · rw [if_pos hr] at h
        injection h with h2
        exact ⟨a.1, v.1, h2.symm⟩
      · rw [if_neg hr] at h
        exact absurd h (by simp)

theorem decodeSubstr_inv (content : List Nat) (f : Filter)
    (h : decodeSubstr content = .ok f) : noEmptySub f = true := by
  unfold decodeSubstr at h
  cases hg : getStr 4 content with
  | error e => rw [hg] at h; exact absurd h (by simp [Except.bind])
  | ok a =>
    rw [hg] at h
    simp only [Except.bind] at h
    cases hq : getTLV 0x30 a.2 with
    | error e => rw [hq] at h; exact absurd h (by simp [Except.bind])
    | ok sq =>
      rw [hq] at h
      simp only [Except.bind] at h
      by_cases hr : sq.2 = []
      · rw [if_pos hr] at h
        cases hi : getTagStrs (sq.1.length + 1) sq.1 with
        | error e => rw [hi] at h; exact absurd h (by simp [Except.bind])
        | ok items =>
          rw [hi] at h
          simp only [Except.bind] at h
          cases hc : compsOfItems items with
          | error e => rw [hc] at h; exact absurd h (by simp [Except.map])
          | ok c =>
            rw [hc] at h
            simp only [Except.map] at h
            injection h with h2
            subst h2
            have hinv := compsOfItems_inv items c hc
            simpa [noEmptySub] using hinv
      · rw [if_neg hr] at h
        exact absurd h (by simp)

theorem decB_inv_aux (fuel : Nat) :
    (∀ bs f rest, decodeFilterB fuel bs = .ok (f, rest) →
      noEmptySub f = true) ∧
    (∀ bs fs, decodeFilterSetB fuel bs = .ok fs →
      noEmptySubL fs = true) := by
  induction fuel with
  | zero =>
    constructor
    · intro bs f rest h
      exact absurd h (by simp [decodeFilterB])
    · intro bs fs h
      cases bs with
      | nil =>
        rw [decodeFilterSetB] at h
        injection h with h2
        subst h2
        rfl
      | cons x xs => exact absurd h (by simp [decodeFilterSetB])
  | succ fuel ih =>
    obtain ⟨ih1, ih2⟩ := ih
    constructor
    · intro bs f rest h
      rw [decodeFilterB.eq_def] at h
      simp only [] at h
      cases hd : decodeTLV bs with
      | error e => rw [hd] at h; exact absurd h (by simp [Except.bind])
      | ok p =>
        rw [hd] at h
        simp only [Except.bind] at h
        by_cases h0 : p.1 = 0xA0
        · rw [if_pos h0] at h
          cases hs : decodeFilterSetB fuel p.2.1 with
          | error e => rw [hs] at h; exact absurd h (by simp [Except.map])
          | ok fs =>
            rw [hs] at h
            simp only [Except.map] at h
            injection h with h2
            have hf2 : f = .and fs := by
              have := congrArg Prod.fst h2
              simpa using this.symm
            subst hf2
            simpa [noEmptySub] using ih2 p.2.1 fs hs
        · rw [if_neg h0] at h
          by_cases h1 : p.1 = 0xA1
          · rw [if_pos h1] at h
            cases hs : decodeFilterSetB fuel p.2.1 with
            | error e => rw [hs] at h; exact absurd h (by simp [Except.map])
            | ok fs =>
              rw [hs] at h
              simp only [Except.map] at h
              injection h with h2
              have hf2 : f = .or fs := by
                have := congrArg Prod.fst h2
                simpa using this.symm
              subst hf2
              simpa [noEmptySub] using ih2 p.2.1 fs hs
          · rw [if_neg h1] at h
            by_cases h2c : p.1 = 0xA2
            · rw [if_pos h2c] at h
              cases hs : decodeFilterB fuel p.2.1 with
              | error e => rw [hs] at h; exact absurd h (by simp [Except.bind])
              | ok q =>
                rw [hs] at h
                simp only [Except.bind] at h
                by_cases hr : q.2 = []
                · rw [if_pos hr] at h
                  injection h with h2
                  have hf2 : f = .not q.1 := by
                    have := congrArg Prod.fst h2
                    simpa using this.symm
                  subst hf2
                  simpa [noEmptySub] using ih1 p.2.1 q.1 q.2 hs
                · rw [if_neg hr] at h
                  exact absurd h (by simp)
            · rw [if_neg h2c] at h
              by_cases h3 : p.1 = 0xA3
              · rw [if_pos h3] at h
                cases hs : decodeAVA Filter.equality p.2.1 with
                | error e => rw [hs] at h; exact absurd h (by simp [Except.map])
                | ok g =>
                  rw [hs] at h
                  simp only [Except.map] at h
                  injection h with h2
                  have hf2 : f = g := by
                    have := congrArg Prod.fst h2
                    simpa using this.symm
                  subst hf2
                  obtain ⟨a, v, hg⟩ := decodeAVA_inv _ _ _ hs
                  subst hg
                  rfl
              · rw [if_neg h3] at h
                by_cases h5 : p.1 = 0xA5
                · rw [if_pos h5] at h
                  cases hs : decodeAVA Filter.greaterOrEqual p.2.1 with
                  | error e => rw [hs] at h; exact absurd h (by simp [Except.map])
                  | ok g =>
                    rw [hs] at h
                    simp only [Except.map] at h
                    injection h with h2
                    have hf2 : f = g := by
                      have := congrArg Prod.fst h2
                      simpa using this.symm
                    subst hf2
                    obtain ⟨a, v, hg⟩ := decodeAVA_inv _ _ _ hs
                    subst hg
                    rfl
                · rw [if_neg h5] at h
                  by_cases h6 : p.1 = 0xA6
                  · rw [if_pos h6] at h
                    cases hs : decodeAVA Filter.lessOrEqual p.2.1 with
                    | error e => rw [hs] at h; exact absurd h (by simp [Except.map])
                    | ok g =>
                      rw [hs] at h
                      simp only [Except.map] at h
                      injection h with h2
                      have hf2 : f = g := by
                        have := congrArg Prod.fst h2
                        simpa using this.symm
                      subst hf2
                      obtain ⟨a, v, hg⟩ := decodeAVA_inv _ _ _ hs
                      subst hg
                      rfl
                  · rw [if_neg h6] at h
                    by_cases h8 : p.1 = 0xA8
                    · rw [if_pos h8] at h
                      cases hs : decodeAVA Filter.approximate p.2.1 with
                      | error e => rw [hs] at h; exact absurd h (by simp [Except.map])
                      | ok g =>
                        rw [hs] at h
                        simp only [Except.map] at h
                        injection h with h2
                        have hf2 : f = g := by
                          have := congrArg Prod.fst h2
                          simpa using this.symm
                        subst hf2
                        obtain ⟨a, v, hg⟩ := decodeAVA_inv _ _ _ hs
                        subst hg
                        rfl
                    · rw [if_neg h8] at h
                      by_cases h7 : p.1 = 0x87
                      · rw [if_pos h7] at h
                        injection h with h2
                        have hf2 : f = .presence (strOfBytes p.2.1) := by
                          have := congrArg Prod.fst h2
                          simpa using this.symm
                        subst hf2
                        rfl
                      · rw [if_neg h7] at h
                        by_cases h4 : p.1 = 0xA4
                        · rw [if_pos h4] at h
                          cases hs : decodeSubstr p.2.1 with
                          | error e => rw [hs] at h; exact absurd h (by simp [Except.map])
                          | ok g =>
                            rw [hs] at h
                            simp only [Except.map] at h
                            injection h with h2
                            have hf2 : f = g := by
                              have := congrArg Prod.fst h2
                              simpa using this.symm
                            subst hf2
                            exact decodeSubstr_inv _ _ hs
                        · rw [if_neg h4] at h
                          exact absurd h (by simp)
    · intro bs fs h
      cases bs with
      | nil =>
        rw [decodeFilterSetB] at h
        injection h with h2
        subst h2
        rfl
      | cons x xs =>
        rw [decodeFilterSetB.eq_def] at h
        simp only [] at h
        cases hd : decodeFilterB fuel (x :: xs) with
        | error e => rw [hd] at h; exact absurd h (by simp [Except.bind])
        | ok p =>
          rw [hd] at h
          simp only [Except.bind] at h
          cases hs : decodeFilterSetB fuel p.2 with
          | error e => rw [hs] at h; exact absurd h (by simp [Except.map])
          | ok fs2 =>
            rw [hs] at h
            simp only [Except.map] at h
            injection h with h2
            subst h2
            simp only [noEmptySubL, Bool.and_eq_true]
            exact ⟨ih1 (x :: xs) p.1 p.2 hd, ih2 p.2 fs2 hs⟩

/-! ## Claim C9 -/

/-- Sample substring initial part. -/
def foSample : String := "fo"

/-- A sample substring filter produced by the source constructor. -/
def subFilterSample : Filter := mkSubstringFilter cnSample foSample [] none

/-- A filter string that parses to the sample substring filter. -/
def subParseSample : String := "(cn=fo*)"

/-- Claim C9: every substring filter value satisfies the
at-least-one-component invariant — the source constructor always
supplies an initial component, and neither the filter-string parser nor
the BER filter decoder ever produces a substring filter with no
initial part, no any parts and no final part. -/
theorem spec_C9_substring_invariant :
    (∀ (attr initial : String) (anyParts : List String)
      (fin : Option String),
      noEmptySub (mkSubstringFilter attr initial anyParts fin) = true) ∧
    (∀ (s : String) (f : Filter), parseFilter s = .ok f →
      noEmptySub f = true) ∧
    (∀ (fuel : Nat) (bs rest : List Nat) (f : Filter),
      decodeFilterB fuel bs = .ok (f, rest) → noEmptySub f = true) := by
  refine ⟨?_, ?_, ?_⟩
  · intro attr initial anyParts fin
    rfl
  · intro s f h
    exact parseFilter_inv s f h
  · intro fuel bs rest f h
    exact (decB_inv_aux fuel).1 bs f rest h

/-- Witness for C9 at concrete instances of all three conjuncts. -/
theorem spec_C9_substring_invariant_witness :
    noEmptySub (mkSubstringFilter cnSample foSample [] none) = true ∧
    (parseFilter subParseSample = .ok subFilterSample ∧
      noEmptySub subFilterSample = true) ∧
    (decodeFilterB 2 (encFilterB subFilterSample) =
        .ok (subFilterSample, []) ∧
      noEmptySub subFilterSample = true) :=
  ⟨spec_C9_substring_invariant.1 cnSample foSample [] none,
   ⟨rfl, spec_C9_substring_invariant.2.1 subParseSample subFilterSample rfl⟩,
   ⟨rfl, spec_C9_substring_invariant.2.2 2 (encFilterB subFilterSample) []
      subFilterSample rfl⟩⟩

/-! ## Message model (spec section 4.3) -/

/-- Decode a filter from a byte prefix, supplying more fuel than any
input can consume. -/
def decodeFilterTop (bs : List Nat) : Except DecErr (Filter × List Nat) :=
  decodeFilterB (bs.length + 1) bs

theorem decodeFilterTop_enc (f : Filter) (rest : List Nat)
    (h : noEmptySub f = true) :
    decodeFilterTop (encFilterB f ++ rest) = .ok (f, rest) := by
  unfold decodeFilterTop
  have hb := (fsizeB_le_enc (fsizeB f)).1 f (le_refl _)
  exact (decB_enc_aux _).1 f rest h
    (by simp only [List.length_append]; omega)

/-- Modelled from the spec (§4.3): decoding a message fails with a BER
error or, on an unrecognized protocol-operation tag, with
UnknownOperationError. -/
inductive MsgErr where
  | berError (e : DecErr)
  | unknownOperationError
deriving DecidableEq, Repr

/-- Lift a codec-level result into the message decoder's error type. -/
def liftD {α : Type} : Except DecErr α → Except MsgErr α
  | .ok a => .ok a
  | .error e => .error (.berError e)

/-- Modelled from the spec (§4.3): the supported LDAP protocol
messages, each carrying its messageID. -/
inductive Message where
  | bindRequest (messageID version : Nat) (name simplePw : String)
  | bindResponse (messageID : Nat) (result : ResultV)
  | searchRequest (messageID : Nat) (baseObject : String) (scope : Scope)
      (filter : Filter) (attrs : List String)
  | searchResultEntry (messageID : Nat) (objectName : String)
      (attrs : List AttrV)
  | searchResultDone (messageID : Nat) (result : ResultV)
  | modifyRequest (messageID : Nat) (object : String)
      (changes : List ChangeV)
  | compareRequest (messageID : Nat) (entry attr value : String)
  | unbindRequest (messageID : Nat)
  | extendedRequest (messageID : Nat) (oid value : String)
  | extendedResponse (messageID : Nat) (result : ResultV)
      (responseName response : String)

/-- The messageID carried by a message. -/
def Message.messageID : Message → Nat
  | .bindRequest mid _ _ _ => mid
  | .bindResponse mid _ => mid
  | .searchRequest mid _ _ _ _ => mid
  | .searchResultEntry mid _ _ => mid
  | .searchResultDone mid _ => mid
  | .modifyRequest mid _ _ => mid
  | .compareRequest mid _ _ _ => mid
  | .unbindRequest mid => mid
  | .extendedRequest mid _ _ => mid
  | .extendedResponse mid _ _ _ => mid

/-- The protocol-operation element of a message: an application-class
tag per variant over the operation's fields. -/
def encOp : Message → List Nat
  | .bindRequest _ version name simplePw =>
    encodeTLV 0x60 (encNat 2 version ++ encOctet 4 name ++
      encOctet 0x80 simplePw)
  | .bindResponse _ r => encodeTLV 0x61 (encResult r)
  | .searchRequest _ base sc f attrs =>
    encodeTLV 0x63 (encOctet 4 base ++ encNat 10 sc.toNat ++
      encFilterB f ++ encodeTLV 0x30 (encStrs 4 attrs))
  | .searchResultEntry _ dn attrs =>
    encodeTLV 0x64 (encOctet 4 dn ++ encodeTLV 0x30 (encAttrs attrs))
  | .searchResultDone _ r => encodeTLV 0x65 (encResult r)
  | .modifyRequest _ obj changes =>
    encodeTLV 0x66 (encOctet 4 obj ++ encodeTLV 0x30 (encChanges changes))
  | .compareRequest _ entry attr value =>
    encodeTLV 0x6E (encOctet 4 entry ++
      encodeTLV 0x30 (encOctet 4 attr ++ encOctet 4 value))
  | .unbindRequest _ => encodeTLV 0x42 []
  | .extendedRequest _ oid value =>
    encodeTLV 0x77 (encOctet 0x80 oid ++ encOctet 0x81 value)
  | .extendedResponse _ r name resp =>
    encodeTLV 0x78 (encResult r ++ encOctet 0x8A name ++
      encOctet 0x8B resp)

/-- Modelled from the spec (§4.3): serialize a message as the envelope
SEQUENCE of its messageID and its protocol-operation element. -/
def Message.toWire (m : Message) : List Nat :=
  encodeTLV 0x30 (encNat 2 m.messageID ++ encOp m)

/-- Modelled from the spec (§4.3): decode the protocol operation,
dispatching on its application-class tag; an unrecognized tag fails
with UnknownOperationError. -/
def decodeOp (mid tag : Nat) (c : List Nat) : Except MsgErr Message :=
  if tag = 0x60 then
    liftD ((getNat 2 c).bind (fun v =>
      (getStr 4 v.2).bind (fun n =>
        (getStr 0x80 n.2).bind (fun p =>
          if p.2 = [] then .ok (.bindRequest mid v.1 n.1 p.1)
          else .error .malformedData))))
  else if tag = 0x61 then
    liftD ((getResult c).bind (fun r =>
      if r.2 = [] then .ok (.bindResponse mid r.1)
      else .error .malformedData))
  else if tag = 0x63 then
    liftD ((getStr 4 c).bind (fun b =>
      (getNat 10 b.2).bind (fun sn =>
        (scopeOfNat sn.1).bind (fun sc =>
          (decodeFilterTop sn.2).bind (fun fp =>
            (getTLV 0x30 fp.2).bind (fun ap =>
              if ap.2 = [] then
                (getStrs 4 (ap.1.length + 1) ap.1).map (fun l =>
                  .searchRequest mid b.1 sc fp.1 l)
              else .error .malformedData))))))
  else if tag = 0x64 then
    liftD ((getStr 4 c).bind (fun d =>
      (getTLV 0x30 d.2).bind (fun ap =>
        if ap.2 = [] then
          (getAttrs (ap.1.length + 1) ap.1).map (fun l =>
            .searchResultEntry mid d.1 l)
        else .error .malformedData)))
  else if tag = 0x65 then
    liftD ((getResult c).bind (fun r =>
      if r.2 = [] then .ok (.searchResultDone mid r.1)
      else .error .malformedData))
  else if tag = 0x66 then
    liftD ((getStr 4 c).bind (fun d =>
      (getTLV 0x30 d.2).bind (fun cp =>
        if cp.2 = [] then
          (getChanges (cp.1.length + 1) cp.1).map (fun l =>
            .modifyRequest mid d.1 l)
        else .error .malformedData)))
  else if tag = 0x6E then
    liftD ((getStr 4 c).bind (fun d =>
      (getTLV 0x30 d.2).bind (fun av =>
        if av.2 = [] then
          (getStr 4 av.1).bind (fun a =>
            (getStr 4 a.2).bind (fun v =>
              if v.2 = [] then .ok (.compareRequest mid d.1 a.1 v.1)
              else .error .malformedData))
        else .error .malformedData)))
  else if tag = 0x42 then
    if c = [] then .ok (.unbindRequest mid)
    else .error (.berError .malformedData)
  else if tag = 0x77 then
    liftD ((getStr 0x80 c).bind (fun o =>
      (getStr 0x81 o.2).bind (fun v =>
        if v.2 = [] then .ok (.extendedRequest mid o.1 v.1)
        else .error .malformedData)))
  else if tag = 0x78 then
    liftD ((getResult c).bind (fun r =>
      (getStr 0x8A r.2).bind (fun n =>
        (getStr 0x8B n.2).bind (fun v =>
          if v.2 = [] then .ok (.extendedResponse mid r.1 n.1 v.1)
          else .error .malformedData))))
  else .error .unknownOperationError

/-- Modelled from the spec (§4.3): decode a message — open the
envelope SEQUENCE, read the messageID, then dispatch on the
protocol-operation tag found inside. -/
def fromWire (bs : List Nat) : Except MsgErr Message :=
  (liftD (decodeTLV bs)).bind (fun p =>
    if p.1 = 0x30 ∧ p.2.2 = [] then
      (liftD (getNat 2 p.2.1)).bind (fun m =>
        (liftD (decodeTLV m.2)).bind (fun q =>
          if q.2.2 = [] then decodeOp m.1 q.1 q.2.1
          else .error (.berError .malformedData)))
    else .error (.berError .malformedData))

/-- Structural validity of a message: a search request's filter must
satisfy the substring at-least-one-component invariant; every other
variant is structurally valid. -/
def Message.wfB : Message → Bool
  | .searchRequest _ _ _ f _ => noEmptySub f
  | _ => true

/-! ## Message round trip -/

theorem getTLV_enc_nil (tag : Nat) (c : List Nat) :
    getTLV tag (encodeTLV tag c) = .ok (c, []) := by
  have h := getTLV_enc tag c []
  rwa [List.append_nil] at h

theorem getStr_enc_nil (tag : Nat) (s : String) :
    getStr tag (encOctet tag s) = .ok (s, []) := by
  have h := getStr_enc tag s []
  rwa [List.append_nil] at h

theorem getResult_enc_nil (r : ResultV) :
    getResult (encResult r) = .ok (r, []) := by
  have h := getResult_enc r []
  rwa [List.append_nil] at h

theorem decTLV_enc_nil (tag : Nat) (c : List Nat) :
    decodeTLV (encodeTLV tag c) = .ok (tag, c, []) := by
  have h := decodeTLV_encodeTLV tag c []
  rwa [List.append_nil] at h

theorem encAttrs_length (l : List AttrV) : l.length ≤ (encAttrs l).length := by
  induction l with
  | nil => simp [encAttrs]
  | cons a l ih =>
    have hform : encAttrs (a :: l) = encAttr a ++ encAttrs l := by
      simp [encAttrs]
    rw [hform]
    have h2 := encodeTLV_length 0x30
      (encOctet 4 a.type ++ encodeTLV 0x31 (encStrs 4 a.vals))
    simp only [List.length_cons, List.length_append]
    unfold encAttr
    omega

theorem encChanges_length (l : List ChangeV) :
    l.length ≤ (encChanges l).length := by
  induction l with
  | nil => simp [encChanges]
  | cons c l ih =>
    have hform : encChanges (c :: l) = encChange c ++ encChanges l := by
      simp [encChanges]
    rw [hform]
    have h2 := encodeTLV_length 0x30
      (encNat 10 c.op.toNat ++ encAttr ⟨c.modType, c.modVals⟩)
    simp only [List.length_cons, List.length_append]
    unfold encChange
    omega

/-- Claim C2: for every supported message variant that is structurally
valid, decoding the bytes produced by encoding it returns an equal
message — fromWire (toWire m) = m. -/
theorem spec_C2_message_roundtrip (m : Message) (h : Message.wfB m = true) :
    fromWire (Message.toWire m) = .ok m := by
  cases m with
  | bindRequest mid v n p =>
    simp [Message.toWire, Message.messageID, encOp, fromWire, liftD,
      decodeOp, decTLV_enc_nil, getNat_enc, getStr_enc, getStr_enc_nil,
      Except.bind]
  | bindResponse mid r =>
    simp [Message.toWire, Message.messageID, encOp, fromWire, liftD,
      decodeOp, decTLV_enc_nil, getNat_enc, getResult_enc_nil,
      Except.bind]
  | searchRequest mid b sc f attrs =>
    have hw : noEmptySub f = true := by simpa [Message.wfB] using h
    have hf := decodeFilterTop_enc f (encodeTLV 0x30 (encStrs 4 attrs)) hw
    have hs : getStrs 4 ((encStrs 4 attrs).length + 1) (encStrs 4 attrs) =
        .ok attrs :=
      getStrs_enc 4 attrs _ (by have := encStrs_length 4 attrs; omega)
    simp [Message.toWire, Message.messageID, encOp, fromWire, liftD,
      decodeOp, decTLV_enc_nil, getNat_enc, getStr_enc, getTLV_enc_nil,
      scopeOfNat_toNat, hf, hs, Except.bind, Except.map]
  | searchResultEntry mid dn l =>
    have ha : getAttrs ((encAttrs l).length + 1) (encAttrs l) = .ok l :=
      getAttrs_enc l _ (by have := encAttrs_length l; omega)
    simp [Message.toWire, Message.messageID, encOp, fromWire, liftD,
      decodeOp, decTLV_enc_nil, getNat_enc, getStr_enc, getTLV_enc_nil,
      ha, Except.bind, Except.map]
  | searchResultDone mid r =>
    simp [Message.toWire, Message.messageID, encOp, fromWire, liftD,
      decodeOp, decTLV_enc_nil, getNat_enc, getResult_enc_nil,
      Except.bind]
  | modifyRequest mid obj l =>
    have hc : getChanges ((encChanges l).length + 1) (encChanges l) =
        .ok l :=
      getChanges_enc l _ (by have := encChanges_length l; omega)
    simp [Message.toWire, Message.messageID, encOp, fromWire, liftD,
      decodeOp, decTLV_enc_nil, getNat_enc, getStr_enc, getTLV_enc_nil,
      hc, Except.bind, Except.map]
  | compareRequest mid d a v =>
    simp [Message.toWire, Message.messageID, encOp, fromWire, liftD,
      decodeOp, decTLV_enc_nil, getNat_enc, getStr_enc, getStr_enc_nil,
      getTLV_enc_nil, Except.bind]
  | unbindRequest mid =>
    simp [Message.toWire, Message.messageID, encOp, fromWire, liftD,
      decodeOp, decTLV_enc_nil, getNat_enc, Except.bind]
  | extendedRequest mid o v =>
    simp [Message.toWire, Message.messageID, encOp, fromWire, liftD,
      decodeOp, decTLV_enc_nil, getNat_enc, getStr_enc, getStr_enc_nil,
      Except.bind]
  | extendedResponse mid r n v =>
    simp [Message.toWire, Message.messageID, encOp, fromWire, liftD,
      decodeOp, decTLV_enc_nil, getNat_enc, getResult_enc, getStr_enc,
      getStr_enc_nil, Except.bind]

/-- A concrete well-formed search request. -/
def wireMsgSample : Message :=
  .searchRequest 7 dnSample .sub sampleFilter [cnSample, ocSample]

/-- Witness for C2 at a concrete search request. -/
theorem spec_C2_message_roundtrip_witness :
    Message.wfB wireMsgSample = true ∧
    fromWire (Message.toWire wireMsgSample) = .ok wireMsgSample :=
  ⟨rfl, spec_C2_message_roundtrip wireMsgSample rfl⟩

end LdapSpec




